import Mathlib

/-!
# Verification of the chess rules engine (`chess.py`)

Shallow embedding of the core engine of the repository: the per-piece
legality predicates (`Pawn.is_valid_move` … `King.is_valid_move`), the board
(`ChessBoard`), `move_piece`, `is_king_in_check`, `is_game_over`,
`save_state` / `undo_move`, and the undo button handler of `main`.

Modelling conventions, mirroring the Python source:
* Coordinates are pairs of integers `(x, y)` where `x` is the row index and
  `y` the column index, exactly as in the source (white pawns move towards
  decreasing `x`).
* The grid `self.board` is modelled as a total function
  `Int × Int → Option Piece`; `get_piece` adds the source's bounds check
  (off-board lookups return `none`).  Raw writes `self.board[x][y] = v` are
  modelled as function update; the source only performs raw writes at
  coordinates supplied by the caller or derived from piece positions, and
  every theorem below restricts those to the board range, where Python raw
  indexing and the function update agree.
* Python object aliasing (a `Piece` object sitting in a grid cell while its
  fields are mutated) is translated by updating the cell's value at each
  mutation point, following the source line by line.
* Python exceptions are modelled with `Except`: the `ValueError` raised by
  `is_king_in_check` when no king is found, the `UnboundLocalError` raised
  when `move_piece` reads the local `direction` on a path that never bound
  it, the `AttributeError` from calling `.move` on `None`, and
  `RecursionError` for the (never reached, see `chkF_eq_inCheck`) mutual
  recursion between `King.is_valid_move` and `is_king_in_check`, bounded
  here by a fuel parameter.
-/

inductive Color where
  | w
  | b
deriving DecidableEq, Repr

def Color.opp : Color → Color
  | .w => .b
  | .b => .w

inductive Kind where
  | pawn
  | rook
  | knight
  | bishop
  | queen
  | king
deriving DecidableEq, Repr

/-- A piece value: kind, color, recorded `position`, `has_moved` flag and the
pawn-only `can_be_captured_en_passant` flag (kept on every piece, read only
behind the `isinstance(…, Pawn)` guards of the source). -/
structure Piece where
  kind : Kind
  color : Color
  pos : Int × Int
  hasMoved : Bool
  epFlag : Bool
deriving DecidableEq, Repr

abbrev Pos := Int × Int

/-- The 8×8 grid `self.board`, as a total function; cells outside the board
range are irrelevant (see module docstring). -/
abbrev Grid := Pos → Option Piece

/-- In-board test used by `get_piece`: `0 <= x < 8 and 0 <= y < 8`. -/
def inB (p : Pos) : Bool :=
  decide (0 ≤ p.1) && decide (p.1 < 8) && decide (0 ≤ p.2) && decide (p.2 < 8)

/-- `ChessBoard.get_piece`: bounds-checked lookup. -/
def getPiece (g : Grid) (p : Pos) : Option Piece :=
  if inB p then g p else none

/-- Raw cell write `self.board[x][y] = v`. -/
def setCell (g : Grid) (p : Pos) (v : Option Piece) : Grid :=
  fun q => if q = p then v else g q

/-- Python `range(a, b)` (step `+1`). -/
def rangeUp (a b : Int) : List Int :=
  (List.range (b - a).toNat).map (fun i : Nat => a + (i : Int))

/-- Python `range(a, b, -1)`. -/
def rangeDown (a b : Int) : List Int :=
  (List.range (a - b).toNat).map (fun i : Nat => a - (i : Int))

/-- Python `range(a, b, step)` for `step = 1` or `-1` as used by the source. -/
def pyRange (a b step : Int) : List Int :=
  if step = 1 then rangeUp a b else rangeDown a b

/-- `Pawn.is_valid_move` (lines 60–89). -/
def pawnValid (self : Piece) (endP : Pos) (g : Grid) : Bool :=
  let (sx, sy) := self.pos
  let (ex, ey) := endP
  let dir : Int := if self.color = .w then -1 else 1
  let startRow : Int := if self.color = .w then 6 else 1
  -- single square forward
  if ey = sy && ex = sx + dir && (getPiece g endP).isNone then true
  -- double square forward
  else if sx = startRow && ey = sy && ex = sx + 2 * dir &&
      (getPiece g (sx + dir, sy)).isNone && (getPiece g endP).isNone then true
  -- diagonal capture / en passant
  else if (ey - sy).natAbs = 1 && ex = sx + dir then
    match getPiece g endP with
    | some t =>
        if t.color ≠ self.color then true
        else
          match getPiece g (sx, ey) with
          | some adj => adj.kind = .pawn && adj.color ≠ self.color && adj.epFlag
          | none => false
    | none =>
        match getPiece g (sx, ey) with
        | some adj => adj.kind = .pawn && adj.color ≠ self.color && adj.epFlag
        | none => false
  else false

/-- `Rook.is_valid_move` (lines 99–117). -/
def rookValid (self : Piece) (endP : Pos) (g : Grid) : Bool :=
  let (sx, sy) := self.pos
  let (ex, ey) := endP
  if sx ≠ ex && sy ≠ ey then false
  else if sx = ex then
    let step : Int := if ey > sy then 1 else -1
    (pyRange (sy + step) ey step).all (fun y => (getPiece g (sx, y)).isNone)
  else
    let step : Int := if ex > sx then 1 else -1
    (pyRange (sx + step) ex step).all (fun x => (getPiece g (x, sy)).isNone)

/-- `Knight.is_valid_move` (lines 127–132). -/
def knightValid (self : Piece) (endP : Pos) : Bool :=
  let dx := (endP.1 - self.pos.1).natAbs
  let dy := (endP.2 - self.pos.2).natAbs
  (dx = 2 && dy = 1) || (dx = 1 && dy = 2)

/-- `Bishop.is_valid_move` (lines 142–154). -/
def bishopValid (self : Piece) (endP : Pos) (g : Grid) : Bool :=
  let (sx, sy) := self.pos
  let (ex, ey) := endP
  let dx := ex - sx
  let dy := ey - sy
  if dx.natAbs ≠ dy.natAbs then false
  else
    let stepX : Int := if dx > 0 then 1 else -1
    let stepY : Int := if dy > 0 then 1 else -1
    ((List.range dx.natAbs).drop 1).all
      (fun i => (getPiece g (sx + i * stepX, sy + i * stepY)).isNone)

/-- `Queen.is_valid_move` (lines 164–168): legal iff legal as a rook or as a
bishop from the same square (the delegate pieces share color and position;
their freshly-constructed `has_moved` is never read). -/
def queenValid (self : Piece) (endP : Pos) (g : Grid) : Bool :=
  rookValid self endP g || bishopValid self endP g

/-- Python exceptions relevant to the engine. -/
inductive PyError where
  | valueError
  | nameError
  | attributeError
  | recursionError
deriving DecidableEq, Repr

/-- Row-major list of all board squares, the iteration order of the scans in
`is_king_in_check`, `move_piece` and `is_game_over`. -/
def allSquares : List Pos :=
  (List.range 8).flatMap
    (fun r : Nat => (List.range 8).map (fun c : Nat => ((r : Int), (c : Int))))

/-- The king search of `is_king_in_check` (lines 360–368): first square, in
row-major order, holding a king of the given color. -/
def findKing (g : Grid) (c : Color) : Option Pos :=
  allSquares.find? (fun q =>
    match g q with
    | some p => p.kind = .king && p.color = c
    | none => false)

/-- The non-king part of the `is_valid_move` dispatch; the king's predicate is
defined below (it mutates the board and calls `is_king_in_check`). -/
def pureValid (self : Piece) (endP : Pos) (g : Grid) : Bool :=
  match self.kind with
  | .pawn => pawnValid self endP g
  | .rook => rookValid self endP g
  | .knight => knightValid self endP
  | .bishop => bishopValid self endP g
  | .queen => queenValid self endP g
  | .king => false

/-- The normal (one-square) clause of `King.is_valid_move` (lines 183–185). -/
def kingNormal (self : Piece) (endP : Pos) (g : Grid) : Bool :=
  (endP.1 - self.pos.1).natAbs ≤ 1 && (endP.2 - self.pos.2).natAbs ≤ 1 &&
    (match getPiece g endP with
     | none => true
     | some t => t.color ≠ self.color)

/-- The attacker scan of `is_king_in_check` (lines 373–380): every piece of
the opponent color is asked whether it can move to the king's square, with
the given `is_valid_move` evaluator.  The board is threaded through the
attacker evaluations because `King.is_valid_move` mutates it (the theorems
below show it is in fact returned unchanged). -/
def attackGo (valid : Piece → Pos → Grid → Except PyError (Bool × Grid))
    (c : Color) (kp : Pos) : List Pos → Grid → Except PyError (Bool × Grid)
  | [], g => .ok (false, g)
  | q :: rest, g =>
      match g q with
      | none => attackGo valid c kp rest g
      | some p =>
          if p.color = c then attackGo valid c kp rest g
          else
            match valid p kp g with
            | .ok (false, g1) => attackGo valid c kp rest g1
            | r => r

/-- `ChessBoard.is_king_in_check` (lines 355–380), parameterized by the
`is_valid_move` evaluator used on the attacking pieces. -/
def chkGo (valid : Piece → Pos → Grid → Except PyError (Bool × Grid))
    (c : Color) (g : Grid) : Except PyError (Bool × Grid) :=
  match findKing g c with
  | none => .error .valueError
  | some kp => attackGo valid c kp allSquares g

/-- The castling check-probe loop of `King.is_valid_move` (lines 201–211):
the king is temporarily placed on each square of its path (skipping the
rook's square) and `is_king_in_check` is consulted, the board being restored
after each probe. -/
def probeGo (check : Color → Grid → Except PyError (Bool × Grid))
    (self : Piece) (sx sy rookY : Int) :
    List Int → Grid → Except PyError (Bool × Grid)
  | [], g => .ok (true, g)
  | y :: rest, g =>
      if y = rookY then probeGo check self sx sy rookY rest g
      else
        let g1 := setCell (setCell g (sx, sy) none) (sx, y) (some self)
        match check self.color g1 with
        | .error e => .error e
        | .ok (inChk, g2) =>
            let g3 := setCell (setCell g2 (sx, y) none) (sx, sy) (some self)
            if inChk then .ok (false, g3)
            else probeGo check self sx sy rookY rest g3

/-- `King.is_valid_move` (lines 178–213), parameterized by the
`is_king_in_check` evaluator used by the castling probes. -/
def kvalGo (check : Color → Grid → Except PyError (Bool × Grid))
    (self : Piece) (endP : Pos) (g : Grid) : Except PyError (Bool × Grid) :=
  let (sx, sy) := self.pos
  let (ex, ey) := endP
  if (ex - sx).natAbs ≤ 1 && (ey - sy).natAbs ≤ 1 then
    .ok (kingNormal self endP g, g)
  else if ¬self.hasMoved && sx = ex && (ey - sy).natAbs = 2 then
    let d : Int := if ey > sy then 1 else -1
    let rookY : Int := if d = 1 then 7 else 0
    match getPiece g (sx, rookY) with
    | some rook =>
        if rook.kind = .rook && ¬rook.hasMoved then
          if (pyRange (sy + d) rookY d).any
              (fun y => (getPiece g (sx, y)).isSome) then
            .ok (false, g)
          else
            probeGo check self sx sy rookY (pyRange sy (sy + 3 * d) d) g
        else .ok (false, g)
    | none => .ok (false, g)
  else .ok (false, g)

/-- `King.is_valid_move` with fuel bounding the mutual recursion with
`is_king_in_check` (a `RecursionError` models fuel exhaustion; the theorems
below show the recursion in fact stops at the first level). -/
def kvalF : Nat → Piece → Pos → Grid → Except PyError (Bool × Grid)
  | 0, _, _, _ => .error .recursionError
  | n + 1, self, endP, g =>
      kvalGo
        (fun c g1 =>
          chkGo
            (fun p kp g2 =>
              match p.kind with
              | .king => kvalF n p kp g2
              | _ => .ok (pureValid p kp g2, g2))
            c g1)
        self endP g

/-- The full `is_valid_move` dispatch at fuel `n`. -/
def validF (n : Nat) (p : Piece) (endP : Pos) (g : Grid) :
    Except PyError (Bool × Grid) :=
  match p.kind with
  | .king => kvalF n p endP g
  | _ => .ok (pureValid p endP g, g)

/-- `ChessBoard.is_king_in_check` at fuel `n`. -/
def chkF (n : Nat) (c : Color) (g : Grid) : Except PyError (Bool × Grid) :=
  chkGo (validF n) c g

theorem kvalF_succ (n : Nat) (self : Piece) (endP : Pos) (g : Grid) :
    kvalF (n + 1) self endP g = kvalGo (chkF n) self endP g := rfl

/-- Fuel used at every top-level call; the theorems below show any fuel
`≥ 2` gives identical results, matching the Python behaviour. -/
def FUELC : Nat := 6

/-- The en-passant-flag clearing loop of `move_piece` (lines 301–305):
every pawn of the mover's color loses `can_be_captured_en_passant`. -/
def clearFlags (c : Color) (g : Grid) : Grid :=
  fun q =>
    match g q with
    | some p =>
        if p.kind = .pawn && p.color = c then some { p with epFlag := false }
        else some p
    | none => none

/-- The board object: grid plus the single `last_state` undo snapshot. -/
structure Game where
  grid : Grid
  lastState : Option Grid

/-- The mover as it stands after the flag updates and `piece.move(end_pos)`
of a `move_piece` execution (lines 301–326), before `has_moved` is set. -/
def mpMover (startP endP : Pos) (piece : Piece) : Piece :=
  let piece1 := if piece.kind = .pawn then { piece with epFlag := false } else piece
  let piece2 :=
    if piece.kind = .pawn && (endP.1 - startP.1).natAbs = 2 then
      { piece1 with epFlag := true }
    else piece1
  { piece2 with pos := endP }

/-- The board after the en-passant removal, flag clearing and double-advance
arming of `move_piece` (lines 295–309). -/
def mpClearGrid (g : Grid) (startP endP : Pos) (c : Color) (piece : Piece) : Grid :=
  let epCond : Bool :=
    piece.kind = .pawn && (endP.2 - startP.2).natAbs = 1 && (getPiece g endP).isNone
  let g2 := if epCond then setCell g (startP.1, endP.2) none else g
  let g3 := clearFlags c g2
  let dbl : Bool := piece.kind = .pawn && (endP.1 - startP.1).natAbs = 2
  if dbl then
    setCell g3 startP (some { (if piece.kind = .pawn then { piece with epFlag := false } else piece) with epFlag := true })
  else g3

/-- The board after the castling rook relocation of `move_piece`
(lines 311–320). -/
def mpCastleGrid (g : Grid) (startP endP : Pos) (c : Color) (piece : Piece) : Grid :=
  let g4 := mpClearGrid g startP endP c piece
  if piece.kind = .king && (endP.2 - startP.2).natAbs = 2 then
    let d0 : Int := if endP.2 > startP.2 then 1 else -1
    let rY0 : Int := if d0 = 1 then 7 else 0
    match getPiece g4 (startP.1, rY0) with
    | some r =>
        if r.kind = .rook then
          setCell (setCell g4 (startP.1, rY0) none) (startP.1, startP.2 + d0)
            (some { r with pos := (startP.1, startP.2 + d0) })
        else g4
    | none => g4
  else g4

/-- The board handed to the `is_king_in_check` test of `move_piece`
(line 332): side effects applied and the mover tentatively placed. -/
def mpSimGrid (g : Grid) (startP endP : Pos) (c : Color) (piece : Piece) : Grid :=
  setCell (setCell (mpCastleGrid g startP endP c piece) endP
    (some (mpMover startP endP piece))) startP none

/-- The board returned by a successful `move_piece` (the mover marked
`has_moved`; on a degenerate `start = end` move the mover object is in no
cell). -/
def mpSuccessGrid (g : Grid) (startP endP : Pos) (c : Color) (piece : Piece) : Grid :=
  if startP = endP then mpSimGrid g startP endP c piece
  else
    setCell (mpSimGrid g startP endP c piece) endP
      (some { mpMover startP endP piece with hasMoved := true })

/-- `original_piece` (line 323): the raw content of the destination cell
just before the tentative placement. -/
def mpOrig (g : Grid) (startP endP : Pos) (c : Color) (piece : Piece) : Option Piece :=
  mpCastleGrid g startP endP c piece endP

/-- `ChessBoard.move_piece` (lines 284–353), translated line by line via the
staged boards above; see the module docstring for the aliasing and exception
conventions.  On the rejected-for-check path, a pawn's diagonal move reaches
the en-passant-undo line 339, which reads the local `direction`; `direction`
is bound only by the castling branch (line 313, requiring a king), so for a
pawn it is always unbound: `UnboundLocalError` (`.nameError`).  In the
castling undo, `rook.move(...)` on a missing rook would be an
`AttributeError` (`.attributeError`). -/
def movePiece (s : Game) (startP endP : Pos) (c : Color) :
    Except PyError (Bool × Game) :=
  let (sx, sy) := startP
  let ey := endP.2
  match getPiece s.grid startP with
  | none => .ok (false, s)
  | some piece =>
    if piece.color ≠ c then .ok (false, s)
    else
      -- save_state (line 292): deep copy of the board into last_state
      let saved : Option Grid := some s.grid
      match validF FUELC piece endP s.grid with
      | .error e => .error e
      | .ok (valid, g1) =>
        if valid then
          -- side effects and tentative placement (295–326), then the check
          -- test (331–332); line 329 sets `last_moved_piece`, never read
          match chkF FUELC c (mpSimGrid g1 startP endP c piece) with
          | .error e => .error e
          | .ok (inChk, g7) =>
            if inChk then
              -- revert the move (334–336)
              let g8 := setCell (setCell g7 startP
                  (some { mpMover startP endP piece with pos := startP })) endP
                  (mpOrig g1 startP endP c piece)
              if piece.kind = .pawn && (ey - sy).natAbs = 1 then
                -- en passant undo (338–340): reads the local `direction`,
                -- never bound on a pawn path, hence UnboundLocalError
                .error .nameError
              else if piece.kind = .king && (ey - sy).natAbs = 2 then
                -- castling undo (342–346)
                let d0 : Int := if ey > sy then 1 else -1
                let rY0 : Int := if d0 = 1 then 7 else 0
                let gA := setCell g8 (sx, sy + d0) none
                match getPiece (mpClearGrid g1 startP endP c piece) (sx, rY0) with
                | none => .error .attributeError
                | some r =>
                    .ok (false,
                      ⟨setCell gA (sx, rY0) (some { r with pos := (sx, rY0) }), saved⟩)
              else .ok (false, ⟨g8, saved⟩)
            else
              -- mark as moved and finish (350–351); if `start = end` the
              -- mover object is no longer in any cell
              let gS := if startP = endP then g7
                else setCell g7 endP
                  (some { mpMover startP endP piece with hasMoved := true })
              .ok (true, ⟨gS, saved⟩)
        else .ok (false, ⟨g1, saved⟩)

/-- `ChessBoard.undo_move` (lines 272–275). -/
def undoMove (s : Game) : Game :=
  match s.lastState with
  | some g => ⟨g, none⟩
  | none => s

/-- The "Step back" button handler of `main` (lines 592–596): when a
snapshot exists, the board is restored AND `player_turn` is flipped back. -/
def stepBack (s : Game) (turn : Color) : Game × Color :=
  match s.lastState with
  | some _ => (undoMove s, turn.opp)
  | none => (s, turn)

/-- Result of `is_game_over`: Python's `False` / `"checkmate"` /
`"stalemate"`. -/
inductive GameStatus where
  | notOver
  | checkmate
  | stalemate
deriving DecidableEq, Repr

/-- The trial loop of `is_game_over` (lines 385–415) over the flattened
list of (piece square, destination) candidates.  The source looks the piece
up once per start square and reuses the object across destinations; as the
trials restore the cell exactly (`piece.move([row, col])` resets the
object's position to its cell), re-reading it per candidate is the same
protocol. -/
def igoScan (color : Color) : List (Pos × Pos) → Grid → Except PyError (Bool × Grid)
  | [], g => .ok (false, g)
  | (sq, tq) :: rest, g =>
      match getPiece g sq with
      | none => igoScan color rest g
      | some p =>
        if p.color ≠ color then igoScan color rest g
        else
          match validF FUELC p tq g with
          | .error e => .error e
          | .ok (false, g1) => igoScan color rest g1
          | .ok (true, g1) =>
            if (match getPiece g1 tq with
                | some t => t.kind = .king
                | none => false : Bool) then
              igoScan color rest g1
            else
              -- temporarily move the piece (397–402)
              let oep : Option Piece := g1 tq
              let gM := setCell (setCell g1 sq none) tq (some { p with pos := tq })
              match chkF FUELC color gM with
              | .error e => .error e
              | .ok (inChk, gC) =>
                  -- undo the move (406–409 / 412–415)
                  let gU := setCell (setCell gC sq (some { p with pos := sq })) tq oep
                  if inChk then igoScan color rest gU
                  else .ok (true, gU)

/-- All (start, destination) candidates in source iteration order. -/
def allMovePairs : List (Pos × Pos) :=
  allSquares.flatMap (fun sq => allSquares.map (fun tq => (sq, tq)))

/-- `ChessBoard.is_game_over` (lines 382–420). -/
def igo (g : Grid) (color : Color) : Except PyError (GameStatus × Grid) :=
  match igoScan color allMovePairs g with
  | .error e => .error e
  | .ok (true, gF) => .ok (.notOver, gF)
  | .ok (false, gF) =>
      match chkF FUELC color gF with
      | .error e => .error e
      | .ok (true, gF2) => .ok (.checkmate, gF2)
      | .ok (false, gF2) => .ok (.stalemate, gF2)

/-- Back-rank piece kind by column, per `setup_board` (lines 222–252). -/
def backKind (y : Int) : Kind :=
  if y = 0 || y = 7 then .rook
  else if y = 1 || y = 6 then .knight
  else if y = 2 || y = 5 then .bishop
  else if y = 3 then .queen
  else .king

/-- `ChessBoard.setup_board` (lines 222–252): the standard initial position. -/
def setupGrid : Grid := fun q =>
  if inB q then
    if q.1 = 1 then some ⟨.pawn, .b, q, false, false⟩
    else if q.1 = 6 then some ⟨.pawn, .w, q, false, false⟩
    else if q.1 = 0 then some ⟨backKind q.2, .b, q, false, false⟩
    else if q.1 = 7 then some ⟨backKind q.2, .w, q, false, false⟩
    else none
  else none

/-- Helper to build concrete boards: lookup of a piece list by position. -/
def gridOf (l : List Piece) : Grid :=
  fun q => l.find? (fun p => decide (p.pos = q))

theorem getPiece_eq_raw (g : Grid) (q : Pos) (h : inB q = true) :
    getPiece g q = g q := by
  simp [getPiece, h]

theorem inB_of_getPiece_some {g : Grid} {q : Pos} {p : Piece}
    (h : getPiece g q = some p) : inB q = true := by
  by_cases hq : inB q = true
  · exact hq
  · simp [getPiece, hq] at h

theorem raw_of_getPiece_some {g : Grid} {q : Pos} {p : Piece}
    (h : getPiece g q = some p) : g q = some p := by
  rw [← getPiece_eq_raw g q (inB_of_getPiece_some h)]
  exact h

theorem setCell_same (g : Grid) (q : Pos) (v : Option Piece) :
    setCell g q v q = v := by
  simp [setCell]

theorem setCell_other (g : Grid) (q q' : Pos) (v : Option Piece)
    (h : q' ≠ q) : setCell g q v q' = g q' := by
  simp [setCell, h]

theorem mem_rangeUp {y a b : Int} : y ∈ rangeUp a b ↔ a ≤ y ∧ y < b := by
  constructor
  · intro h
    obtain ⟨i, hi, hy⟩ := List.mem_map.mp h
    have hi2 := List.mem_range.mp hi
    subst hy
    omega
  · rintro ⟨h1, h2⟩
    exact List.mem_map.mpr ⟨(y - a).toNat, List.mem_range.mpr (by omega), by omega⟩

theorem mem_rangeDown {y a b : Int} : y ∈ rangeDown a b ↔ b < y ∧ y ≤ a := by
  constructor
  · intro h
    obtain ⟨i, hi, hy⟩ := List.mem_map.mp h
    have hi2 := List.mem_range.mp hi
    subst hy
    omega
  · rintro ⟨h1, h2⟩
    exact List.mem_map.mpr ⟨(a - y).toNat, List.mem_range.mpr (by omega), by omega⟩

theorem mem_allSquares {q : Pos} : q ∈ allSquares ↔ inB q = true := by
  obtain ⟨x, y⟩ := q
  constructor
  · intro h
    obtain ⟨r, hr, h2⟩ := List.mem_flatMap.mp h
    obtain ⟨c, hc, h3⟩ := List.mem_map.mp h2
    have hr2 := List.mem_range.mp hr
    have hc2 := List.mem_range.mp hc
    obtain ⟨h4, h5⟩ := Prod.mk.injEq .. ▸ h3
    simp only [inB, Bool.and_eq_true, decide_eq_true_eq]
    omega
  · intro h
    simp only [inB, Bool.and_eq_true, decide_eq_true_eq] at h
    refine List.mem_flatMap.mpr ⟨x.toNat, List.mem_range.mpr (by omega), ?_⟩
    refine List.mem_map.mpr ⟨y.toNat, List.mem_range.mpr (by omega), ?_⟩
    simp only [Prod.mk.injEq]
    omega

/-- Attack semantics of a piece as seen by `is_king_in_check` when the target
square holds a king: the castling clause of an attacking king can never get
past its corridor/rook checks (the attacked king itself blocks them, see
`kvalGo_attack_king`), so only the one-square clause remains. -/
def pureAttack (p : Piece) (kp : Pos) (g : Grid) : Bool :=
  match p.kind with
  | .king => kingNormal p kp g
  | _ => pureValid p kp g

/-- Pure version of the attacker scan of `is_king_in_check`. -/
def attackAny (c : Color) (kp : Pos) (l : List Pos) (g : Grid) : Bool :=
  l.any (fun q =>
    match g q with
    | some p => p.color ≠ c && pureAttack p kp g
    | none => false)

/-- Pure version of `is_king_in_check` (`none` models the `ValueError` raised
when no king of the color is on the board). -/
def inCheckOpt (c : Color) (g : Grid) : Option Bool :=
  (findKing g c).map (fun kp => attackAny c kp allSquares g)

/-- When `King.is_valid_move` is aimed at a square that holds a king, the
castling clause always fails before its check probes: either the geometry or
rook conditions fail, or the target king itself occupies the corridor (or
the rook square).  Hence the call is read-only and does not recurse into
`is_king_in_check`, whatever evaluator `check` is supplied. -/
theorem kvalGo_attack_king
    (check : Color → Grid → Except PyError (Bool × Grid))
    (self k : Piece) (kp : Pos) (g : Grid)
    (hk : getPiece g kp = some k) (hkk : k.kind = .king) :
    kvalGo check self kp g = .ok (kingNormal self kp g, g) := by
  obtain ⟨kd, cl, ⟨sx, sy⟩, hm, fl⟩ := self
  obtain ⟨ex, ey⟩ := kp
  have hinb : inB (ex, ey) = true := inB_of_getPiece_some hk
  have hey : 0 ≤ ey ∧ ey < 8 := by
    simp only [inB, Bool.and_eq_true, decide_eq_true_eq] at hinb
    exact ⟨hinb.1.2, hinb.2⟩
  unfold kvalGo
  dsimp only
  split
  · rfl
  · rename_i hnot1
    have hkn : kingNormal ⟨kd, cl, (sx, sy), hm, fl⟩ (ex, ey) g = false := by
      unfold kingNormal
      dsimp only
      rcases h1 : decide ((ex - sx).natAbs ≤ 1) with _ | _ <;>
        rcases h2 : decide ((ey - sy).natAbs ≤ 1) with _ | _ <;>
          simp_all
    rw [hkn]
    split
    · rename_i hgate
      simp only [Bool.and_eq_true, Bool.not_eq_true', decide_eq_true_eq] at hgate
      obtain ⟨⟨hm0, hsx⟩, hdy⟩ := hgate
      subst hsx
      split
      · rename_i rook hrook
        split
        · rename_i hrookok
          simp only [Bool.and_eq_true, Bool.not_eq_true', decide_eq_true_eq] at hrookok
          -- the target square is never the rook square (the king is there)
          have heyrook : ey ≠ (if (if ey > sy then (1 : Int) else -1) = 1 then (7 : Int) else 0) := by
            intro he
            rw [← he] at hrook
            rw [hk] at hrook
            obtain rfl := Option.some.injEq .. ▸ hrook
            rw [hkk] at hrookok
            exact absurd hrookok.1 (by decide)
          -- and therefore it blocks the corridor scan
          have hblocked :
              (pyRange (sy + (if ey > sy then (1 : Int) else -1))
                (if (if ey > sy then (1 : Int) else -1) = 1 then (7 : Int) else 0)
                (if ey > sy then (1 : Int) else -1)).any
                (fun y => (getPiece g (sx, y)).isSome) = true := by
            apply List.any_eq_true.mpr
            refine ⟨ey, ?_, by rw [hk]; rfl⟩
            by_cases hgt : ey > sy
            · simp only [hgt, if_true] at heyrook ⊢
              have hpr : pyRange (sy + 1) 7 1 = rangeUp (sy + 1) 7 := by
                simp [pyRange]
              rw [hpr, mem_rangeUp]
              omega
            · simp only [hgt, if_false] at heyrook ⊢
              have hif : (if (-1 : Int) = 1 then (7 : Int) else 0) = 0 := by norm_num
              rw [hif] at heyrook ⊢
              have hpr : pyRange (sy + -1) 0 (-1) = rangeDown (sy + -1) 0 := by
                norm_num [pyRange]
              rw [hpr, mem_rangeDown]
              omega
          rw [hblocked]
          rfl
        · rfl
      · rfl
    · rfl

theorem validF_attack (n : Nat) (p k : Piece) (kp : Pos) (g : Grid)
    (hk : getPiece g kp = some k) (hkk : k.kind = .king) :
    validF (n + 1) p kp g = .ok (pureAttack p kp g, g) := by
  unfold validF pureAttack
  cases hkd : p.kind
  case king =>
    rw [kvalF_succ]
    exact kvalGo_attack_king (chkF n) p k kp g hk hkk
  all_goals rfl

theorem attackGo_pure (n : Nat) (c : Color) (k : Piece) (kp : Pos) (g : Grid)
    (hk : getPiece g kp = some k) (hkk : k.kind = .king) (l : List Pos) :
    attackGo (validF (n + 1)) c kp l g = .ok (attackAny c kp l g, g) := by
  induction l with
  | nil => rfl
  | cons q rest ih =>
    have hcons : attackAny c kp (q :: rest) g =
        ((match g q with
          | some p => !decide (p.color = c) && pureAttack p kp g
          | none => false) || attackAny c kp rest g) := by
      simp [attackAny]
    rw [hcons]
    unfold attackGo
    cases hq : g q with
    | none =>
        simp only [hq, Bool.false_or]
        exact ih
    | some p =>
        simp only [hq]
        by_cases hc : p.color = c
        · simp only [hc, decide_True, Bool.not_true, Bool.false_and, Bool.false_or,
            if_pos rfl]
          exact ih
        · rw [if_neg hc, validF_attack n p k kp g hk hkk]
          cases hpa : pureAttack p kp g
          · simp only [hpa, Bool.and_false, Bool.false_or]
            exact ih
          · simp [hpa, hc]

theorem findKing_spec {g : Grid} {c : Color} {kp : Pos}
    (h : findKing g c = some kp) :
    ∃ k, getPiece g kp = some k ∧ k.kind = .king ∧ k.color = c := by
  unfold findKing at h
  have hmem : kp ∈ allSquares := List.mem_of_find?_eq_some h
  have hpred := List.find?_some h
  cases hgk : g kp with
  | none => rw [hgk] at hpred; exact absurd hpred (by simp)
  | some k =>
      rw [hgk] at hpred
      simp only [Bool.and_eq_true, decide_eq_true_eq] at hpred
      exact ⟨k, by rw [getPiece_eq_raw g kp (mem_allSquares.mp hmem)]; exact hgk,
        hpred.1, hpred.2⟩

/-- `is_king_in_check` is read-only and effectively non-recursive: at any
fuel `≥ 1` it returns the pure `inCheckOpt` verdict and the board unchanged
(`ValueError` when no king of the color is on the board). -/
theorem chkF_eq_inCheck (n : Nat) (c : Color) (g : Grid) :
    chkF (n + 1) c g =
      match inCheckOpt c g with
      | none => .error .valueError
      | some b => .ok (b, g) := by
  unfold chkF chkGo inCheckOpt
  cases hfk : findKing g c with
  | none => rfl
  | some kp =>
      obtain ⟨k, hk, hkk, _⟩ := findKing_spec hfk
      simp only [Option.map_some]
      exact attackGo_pure n c k kp g hk hkk allSquares

theorem findKing_isSome {g : Grid} {c : Color} {q : Pos} {k : Piece}
    (hq : inB q = true) (hk : g q = some k) (hkk : k.kind = .king)
    (hkc : k.color = c) : (findKing g c).isSome := by
  unfold findKing
  rw [List.find?_isSome]
  exact ⟨q, mem_allSquares.mpr hq, by rw [hk]; simp [hkk, hkc]⟩

theorem probeGo_pure (n : Nat) (self : Piece) (sx sy rookY : Int) (g : Grid)
    (hkind : self.kind = .king)
    (hpos : self.pos = (sx, sy))
    (hsyb : inB (sx, sy) = true)
    (hsy : g (sx, sy) = some self)
    (l : List Int)
    (hl : ∀ y ∈ l, y ≠ rookY →
      y = sy ∨ (g (sx, y) = none ∧ inB (sx, y) = true ∧ y ≠ sy)) :
    ∃ b, probeGo (chkF (n + 1)) self sx sy rookY l g = .ok (b, g) := by
  induction l with
  | nil => exact ⟨true, rfl⟩
  | cons y rest ih =>
    have hrest : ∀ y2 ∈ rest, y2 ≠ rookY →
        y2 = sy ∨ (g (sx, y2) = none ∧ inB (sx, y2) = true ∧ y2 ≠ sy) :=
      fun y2 h2 => hl y2 (List.mem_cons_of_mem y h2)
    unfold probeGo
    by_cases hyr : y = rookY
    · rw [if_pos hyr]
      exact ih hrest
    · rw [if_neg hyr]
      have hy := hl y (List.mem_cons_self y rest) hyr
      -- the probe board carries the king at (sx, y), so no ValueError
      have hkingat : (setCell (setCell g (sx, sy) none) (sx, y) (some self)) (sx, y)
          = some self := setCell_same ..
      have hyb : inB (sx, y) = true := by
        rcases hy with rfl | ⟨_, hb, _⟩
        · exact hsyb
        · exact hb
      have hfind := @findKing_isSome _ self.color _ _ hyb hkingat hkind rfl
      dsimp only
      rw [chkF_eq_inCheck]
      unfold inCheckOpt
      cases hfk : findKing (setCell (setCell g (sx, sy) none) (sx, y) (some self))
          self.color with
      | none => rw [hfk] at hfind; exact absurd hfind (by decide)
      | some kp =>
        simp only [Option.map_some']
        -- the restore writes give back exactly the original board
        have hrestore :
            setCell (setCell (setCell (setCell g (sx, sy) none) (sx, y) (some self))
              (sx, y) none) (sx, sy) (some self) = g := by
          funext q
          by_cases hq1 : q = (sx, sy)
          · subst hq1
            rw [setCell_same, hsy]
          · rw [setCell_other _ _ _ _ hq1]
            by_cases hq2 : q = (sx, y)
            · subst hq2
              rw [setCell_same]
              rcases hy with rfl | ⟨hnone, _, _⟩
              · exact absurd rfl hq1
              · exact hnone.symm
            · rw [setCell_other _ _ _ _ hq2, setCell_other _ _ _ _ hq2,
                setCell_other _ _ _ _ hq1]
        cases hchk : attackAny self.color kp allSquares
            (setCell (setCell g (sx, sy) none) (sx, y) (some self)) with
        | true => exact ⟨false, by rw [hrestore]; rfl⟩
        | false =>
          obtain ⟨b, hb⟩ := ih hrest
          exact ⟨b, by rw [hrestore]; exact hb⟩

theorem inB_iff {x y : Int} :
    inB (x, y) = true ↔ 0 ≤ x ∧ x < 8 ∧ 0 ≤ y ∧ y < 8 := by
  simp only [inB, Bool.and_eq_true, decide_eq_true_eq]
  tauto

theorem getPiece_none_raw {g : Grid} {q : Pos} (hb : inB q = true)
    (h : getPiece g q = none) : g q = none := by
  rw [getPiece_eq_raw g q hb] at h
  exact h

/-- `King.is_valid_move` is pure with respect to board contents: with the
king on the square its `position` records and an on-board destination, the
call returns the board exactly as it found it (every castling probe is
restored), at any fuel `≥ 2`. -/
theorem kvalF_pure (n : Nat) (self : Piece) (endP : Pos) (g : Grid)
    (hkind : self.kind = .king)
    (hsync : getPiece g self.pos = some self)
    (hend : inB endP = true) :
    ∃ b, kvalF (n + 2) self endP g = .ok (b, g) := by
  rw [kvalF_succ]
  obtain ⟨ex, ey⟩ := endP
  have hsyb : inB self.pos = true := inB_of_getPiece_some hsync
  have hsy : g self.pos = some self := raw_of_getPiece_some hsync
  rcases hps : self.pos with ⟨sx, sy⟩
  rw [hps] at hsyb hsy
  have hsxb : 0 ≤ sx ∧ sx < 8 ∧ 0 ≤ sy ∧ sy < 8 := inB_iff.mp hsyb
  have heyb : 0 ≤ ex ∧ ex < 8 ∧ 0 ≤ ey ∧ ey < 8 := inB_iff.mp hend
  unfold kvalGo
  rw [hps]
  dsimp only
  split
  · exact ⟨_, rfl⟩
  split
  case isFalse => exact ⟨false, rfl⟩
  rename_i hgate
  simp only [Bool.and_eq_true, Bool.not_eq_true', decide_eq_true_eq] at hgate
  obtain ⟨⟨hm0, hsx⟩, hdy⟩ := hgate
  by_cases hgt : ey > sy
  · simp only [hgt, if_true]
    cases hrook : getPiece g (sx, (7 : Int)) with
    | none => exact ⟨false, rfl⟩
    | some rook =>
      dsimp only
      by_cases hro : (decide (rook.kind = Kind.rook) && decide ¬rook.hasMoved = true) = true
      case neg => rw [if_neg hro]; exact ⟨false, rfl⟩
      rw [if_pos hro]
      by_cases hcor : ((pyRange (sy + 1) 7 1).any fun y => (getPiece g (sx, y)).isSome) = true
      case pos => rw [if_pos hcor]; exact ⟨false, rfl⟩
      rw [if_neg hcor]
      rw [Bool.not_eq_true] at hcor
      have hcor2 := List.any_eq_false.mp hcor
      apply probeGo_pure n self sx sy _ g hkind hps hsyb hsy
      intro y hmem hyrook
      have hy3 : y ∈ rangeUp sy (sy + 3 * 1) := by
        have hpr : pyRange sy (sy + 3 * 1) 1 = rangeUp sy (sy + 3 * 1) := by
          simp [pyRange]
        rw [hpr] at hmem
        exact hmem
      rw [mem_rangeUp] at hy3
      by_cases hysy : y = sy
      · exact Or.inl hysy
      · refine Or.inr ⟨?_, by rw [inB_iff]; omega, hysy⟩
        have hy4 : y ∈ pyRange (sy + 1) 7 1 := by
          have hpr : pyRange (sy + 1) 7 1 = rangeUp (sy + 1) 7 := by
            simp [pyRange]
          rw [hpr, mem_rangeUp]
          omega
        have h5 := hcor2 y hy4
        cases hgp : getPiece g (sx, y) with
        | none => exact getPiece_none_raw (by rw [inB_iff]; omega) hgp
        | some p => rw [hgp] at h5; simp at h5
  · simp only [hgt, if_false]
    have h0 : (if (-1 : Int) = 1 then (7 : Int) else 0) = 0 := by norm_num
    rw [h0]
    cases hrook : getPiece g (sx, (0 : Int)) with
    | none => exact ⟨false, rfl⟩
    | some rook =>
      dsimp only
      by_cases hro : (decide (rook.kind = Kind.rook) && decide ¬rook.hasMoved = true) = true
      case neg => rw [if_neg hro]; exact ⟨false, rfl⟩
      rw [if_pos hro]
      by_cases hcor : ((pyRange (sy + -1) 0 (-1)).any fun y => (getPiece g (sx, y)).isSome) = true
      case pos => rw [if_pos hcor]; exact ⟨false, rfl⟩
      rw [if_neg hcor]
      rw [Bool.not_eq_true] at hcor
      have hcor2 := List.any_eq_false.mp hcor
      apply probeGo_pure n self sx sy _ g hkind hps hsyb hsy
      intro y hmem hyrook
      have hy3 : y ∈ rangeDown sy (sy + 3 * -1) := by
        have hpr : pyRange sy (sy + 3 * -1) (-1) = rangeDown sy (sy + 3 * -1) := by
          norm_num [pyRange]
        rw [hpr] at hmem
        exact hmem
      rw [mem_rangeDown] at hy3
      by_cases hysy : y = sy
      · exact Or.inl hysy
      · refine Or.inr ⟨?_, by rw [inB_iff]; omega, hysy⟩
        have hy4 : y ∈ pyRange (sy + -1) 0 (-1) := by
          have hpr : pyRange (sy + -1) 0 (-1) = rangeDown (sy + -1) 0 := by
            norm_num [pyRange]
          rw [hpr, mem_rangeDown]
          omega
        have h5 := hcor2 y hy4
        cases hgp : getPiece g (sx, y) with
        | none => exact getPiece_none_raw (by rw [inB_iff]; omega) hgp
        | some p => rw [hgp] at h5; simp at h5

theorem validF_pure (n : Nat) (p : Piece) (endP : Pos) (g : Grid)
    (hsync : getPiece g p.pos = some p) (hend : inB endP = true) :
    ∃ b, validF (n + 2) p endP g = .ok (b, g) := by
  unfold validF
  cases hk : p.kind
  case king => exact kvalF_pure n p endP g hk hsync hend
  all_goals exact ⟨_, rfl⟩

theorem mp_guard_none {s : Game} {a b : Pos} {c : Color}
    (hga : getPiece s.grid a = none) :
    movePiece s a b c = .ok (false, s) := by
  obtain ⟨ax, ay⟩ := a
  obtain ⟨bx, by2⟩ := b
  unfold movePiece
  rw [hga]

theorem mp_guard_color {s : Game} {a b : Pos} {c : Color} {p : Piece}
    (hga : getPiece s.grid a = some p) (hc : ¬p.color = c) :
    movePiece s a b c = .ok (false, s) := by
  obtain ⟨ax, ay⟩ := a
  obtain ⟨bx, by2⟩ := b
  unfold movePiece
  rw [hga]
  dsimp only
  rw [if_pos hc]


/-- Characterization of a successful `move_piece`: the mover was the piece
at `start` of the requested color, its legality predicate accepted (leaving
the board unchanged), the check test passed, and the resulting state is the
staged board with the snapshot taken before any mutation. -/
theorem mp_true_shape {s : Game} {a b : Pos} {c : Color} {s' : Game} {p : Piece}
    (hga : getPiece s.grid a = some p)
    (hpos : p.pos = a)
    (hbB : inB b = true)
    (h : movePiece s a b c = .ok (true, s')) :
    p.color = c ∧ validF FUELC p b s.grid = .ok (true, s.grid) ∧
      inCheckOpt c (mpSimGrid s.grid a b c p) = some false ∧
      s' = ⟨mpSuccessGrid s.grid a b c p, some s.grid⟩ := by
  obtain ⟨ax, ay⟩ := a
  obtain ⟨bx, by2⟩ := b
  unfold movePiece at h
  rw [hga] at h
  dsimp only at h
  by_cases hc : p.color = c
  case neg =>
    rw [if_pos hc] at h
    simp at h
  rw [if_neg (fun hne => hne hc)] at h
  obtain ⟨vb, hv⟩ := validF_pure 4 p (bx, by2) s.grid (by rw [hpos]; exact hga) hbB
  have hFC : validF FUELC p (bx, by2) s.grid = .ok (vb, s.grid) := hv
  rw [hFC] at h
  dsimp only at h
  cases vb with
  | false => simp at h
  | true =>
    rw [if_pos rfl] at h
    rw [show FUELC = 5 + 1 from rfl, chkF_eq_inCheck] at h
    refine ⟨hc, hFC, ?_⟩
    cases hic : inCheckOpt c (mpSimGrid s.grid (ax, ay) (bx, by2) c p) with
    | none =>
        rw [hic] at h
        simp at h
    | some ic =>
        rw [hic] at h
        dsimp only at h
        cases ic with
        | true =>
            rw [if_pos rfl] at h
            exfalso
            iterate 6 (all_goals (try split at h))
            all_goals simp at h
        | false =>
            rw [if_neg (by simp)] at h
            injection h with h2
            injection h2 with h3 h4
            exact ⟨rfl, h4.symm⟩

theorem mp_true_lastState {s : Game} {a b : Pos} {c : Color} {s' : Game}
    (h : movePiece s a b c = .ok (true, s')) :
    s'.lastState = some s.grid := by
  obtain ⟨ax, ay⟩ := a
  obtain ⟨bx, by2⟩ := b
  unfold movePiece at h
  dsimp only at h
  iterate 9 (all_goals (try split at h))
  all_goals (try (exfalso; simp at h; done))
  all_goals (injection h with h2; injection h2 with h3 h4; rw [← h4])

theorem clearFlags_cell {c : Color} {g : Grid} {q : Pos} {v : Piece}
    (h : clearFlags c g q = some v) :
    ∃ w, g q = some w ∧
      ((w.kind = .pawn ∧ w.color = c ∧ v = { w with epFlag := false })
        ∨ (¬(w.kind = .pawn ∧ w.color = c) ∧ v = w)) := by
  unfold clearFlags at h
  cases hg : g q with
  | none => rw [hg] at h; simp at h
  | some w =>
      rw [hg] at h
      dsimp only at h
      refine ⟨w, rfl, ?_⟩
      by_cases hw : (decide (w.kind = Kind.pawn) && decide (w.color = c)) = true
      · rw [if_pos hw] at h
        simp only [Bool.and_eq_true, decide_eq_true_eq] at hw
        exact Or.inl ⟨hw.1, hw.2, (Option.some.injEq .. ▸ h).symm⟩
      · rw [if_neg hw] at h
        simp only [Bool.and_eq_true, decide_eq_true_eq, not_and] at hw
        refine Or.inr ⟨fun hand => hw hand.1 hand.2, (Option.some.injEq .. ▸ h).symm⟩

theorem mpMover_kind (a b : Pos) (p : Piece) : (mpMover a b p).kind = p.kind := by
  unfold mpMover
  dsimp only
  split <;> split <;> rfl

theorem mpMover_color (a b : Pos) (p : Piece) : (mpMover a b p).color = p.color := by
  unfold mpMover
  dsimp only
  split <;> split <;> rfl

theorem mpMover_pos (a b : Pos) (p : Piece) : (mpMover a b p).pos = b := rfl

theorem mpMover_hasMoved (a b : Pos) (p : Piece) :
    (mpMover a b p).hasMoved = p.hasMoved := by
  unfold mpMover
  dsimp only
  split <;> split <;> rfl

/-- The en-passant flag of the moved piece: armed exactly on a pawn's
two-row move, cleared on any other pawn move, untouched on non-pawns. -/
theorem mpMover_epFlag (a b : Pos) (p : Piece) :
    (mpMover a b p).epFlag =
      (if p.kind = .pawn then decide ((b.1 - a.1).natAbs = 2) else p.epFlag) := by
  unfold mpMover
  dsimp only
  by_cases h2 : (decide (p.kind = Kind.pawn) && decide ((b.1 - a.1).natAbs = 2)) = true
  · rw [if_pos h2]
    simp only [Bool.and_eq_true, decide_eq_true_eq] at h2
    simp [h2.1, h2.2]
  · rw [if_neg h2]
    simp only [Bool.and_eq_true, decide_eq_true_eq, not_and] at h2
    by_cases hp : p.kind = Kind.pawn
    · simp only [if_pos hp]
      have := h2 hp
      simp [this]
    · simp [hp]

theorem mpClear_cell {g : Grid} {a b : Pos} {c : Color} {p : Piece} {q : Pos} {v : Piece}
    (hqa : q ≠ a) (hv : mpClearGrid g a b c p q = some v) :
    clearFlags c g q = some v := by
  unfold mpClearGrid at hv
  dsimp only at hv
  have core : ∀ (hv2 : clearFlags c
      (if (decide (p.kind = Kind.pawn) && decide ((b.2 - a.2).natAbs = 1) &&
        (getPiece g (b.1, b.2)).isNone) = true then setCell g (a.1, b.2) none else g) q
      = some v), clearFlags c g q = some v := by
    intro hv2
    split at hv2
    · by_cases hq2 : q = ((a.1 : Int), (b.2 : Int))
      · subst hq2
        unfold clearFlags at hv2
        rw [setCell_same] at hv2
        simp at hv2
      · unfold clearFlags at hv2 ⊢
        rw [setCell_other _ _ _ _ hq2] at hv2
        exact hv2
    · exact hv2
  split at hv
  · rw [setCell_other _ _ _ _ hqa] at hv
    exact core hv
  · exact core hv

theorem mpCastle_cell {g : Grid} {a b : Pos} {c : Color} {p : Piece} {q : Pos} {v : Piece}
    (hqa : q ≠ a) (hv : mpCastleGrid g a b c p q = some v) :
    (p.kind = .king ∧ v.kind = .rook ∧ v.pos = q)
    ∨ clearFlags c g q = some v := by
  unfold mpCastleGrid at hv
  dsimp only at hv
  split at hv
  case isTrue hcast =>
    cases hr : getPiece (mpClearGrid g a b c p)
        ((a.1 : Int), (if (if b.2 > a.2 then (1 : Int) else -1) = 1 then (7 : Int) else 0)) with
    | none =>
        rw [hr] at hv
        exact Or.inr (mpClear_cell hqa hv)
    | some r =>
        rw [hr] at hv
        dsimp only at hv
        by_cases hrk : r.kind = Kind.rook
        · rw [if_pos hrk] at hv
          by_cases hqt : q = ((a.1 : Int), a.2 + (if b.2 > a.2 then (1 : Int) else -1))
          · rw [hqt, setCell_same] at hv
            obtain rfl := (Option.some.injEq .. ▸ hv).symm
            simp only [Bool.and_eq_true, decide_eq_true_eq] at hcast
            exact Or.inl ⟨hcast.1, hrk, by rw [hqt]⟩
          · rw [setCell_other _ _ _ _ hqt] at hv
            by_cases hqr : q = ((a.1 : Int),
                (if (if b.2 > a.2 then (1 : Int) else -1) = 1 then (7 : Int) else 0))
            · rw [hqr, setCell_same] at hv
              simp at hv
            · rw [setCell_other _ _ _ _ hqr] at hv
              exact Or.inr (mpClear_cell hqa hv)
        · rw [if_neg hrk] at hv
          exact Or.inr (mpClear_cell hqa hv)
  case isFalse => exact Or.inr (mpClear_cell hqa hv)

theorem mpSuccess_cell {g : Grid} {a b : Pos} {c : Color} {p : Piece} {q : Pos} {v : Piece}
    (hv : mpSuccessGrid g a b c p q = some v) :
    (q = b ∧ a ≠ b ∧ v = { mpMover a b p with hasMoved := true })
    ∨ (q ≠ a ∧ q ≠ b ∧ p.kind = .king ∧ v.kind = .rook ∧ v.pos = q)
    ∨ (q ≠ a ∧ clearFlags c g q = some v) := by
  unfold mpSuccessGrid at hv
  by_cases hab : a = b
  · rw [if_pos hab] at hv
    unfold mpSimGrid at hv
    by_cases hqa : q = a
    · rw [hqa, setCell_same] at hv
      simp at hv
    · rw [setCell_other _ _ _ _ hqa] at hv
      rw [← hab, setCell_other _ _ _ _ hqa] at hv
      rcases mpCastle_cell hqa hv with h1 | h2
      · exact Or.inr (Or.inl ⟨hqa, fun hqb => hqa (hqb.trans hab.symm), h1⟩)
      · exact Or.inr (Or.inr ⟨hqa, h2⟩)
  · rw [if_neg hab] at hv
    by_cases hqb : q = b
    · rw [hqb, setCell_same] at hv
      exact Or.inl ⟨hqb, hab, (Option.some.injEq .. ▸ hv).symm⟩
    · rw [setCell_other _ _ _ _ hqb] at hv
      unfold mpSimGrid at hv
      by_cases hqa : q = a
      · rw [hqa, setCell_same] at hv
        simp at hv
      · rw [setCell_other _ _ _ _ hqa, setCell_other _ _ _ _ hqb] at hv
        rcases mpCastle_cell hqa hv with h1 | h2
        · exact Or.inr (Or.inl ⟨hqa, hqb, h1⟩)
        · exact Or.inr (Or.inr ⟨hqa, h2⟩)

/-- A pawn of color `c` sits on square `q`. -/
def pawnOfAt (c : Color) (g : Grid) (q : Pos) : Bool :=
  match g q with
  | some p => p.kind = .pawn && p.color = c
  | none => false

/-- A pawn of color `c` with `can_be_captured_en_passant` set sits on `q`. -/
def armedPawnOfAt (c : Color) (g : Grid) (q : Pos) : Bool :=
  match g q with
  | some p => p.kind = .pawn && p.color = c && p.epFlag
  | none => false

/-- Every piece on the board records the square it occupies (the data-model
invariant of the spec: a piece is owned by the cell it occupies). -/
def syncB (g : Grid) : Bool :=
  allSquares.all (fun q =>
    match g q with
    | some p => decide (p.pos = q)
    | none => true)

/-- No white pawn stands on row 7 (White's own back rank; white pawns start
on row 6 and only ever decrease their row). -/
def noWPawnRow7 (g : Grid) : Bool :=
  allSquares.all (fun q => !(decide (q.1 = 7) && pawnOfAt .w g q))

theorem syncB_spec {g : Grid} (hs : syncB g = true) {q : Pos} {pp : Piece}
    (hq : inB q = true) (hgq : g q = some pp) : pp.pos = q := by
  unfold syncB at hs
  rw [List.all_eq_true] at hs
  have := hs q (mem_allSquares.mpr hq)
  rw [hgq] at this
  exact of_decide_eq_true this

theorem noWPawnRow7_spec {g : Grid} (hs : noWPawnRow7 g = true) {q : Pos}
    (hq : inB q = true) (h7 : q.1 = 7) : pawnOfAt .w g q = false := by
  unfold noWPawnRow7 at hs
  rw [List.all_eq_true] at hs
  have := hs q (mem_allSquares.mpr hq)
  rw [h7] at this
  simpa using this

theorem pawnValid_white_dx {p : Piece} {b : Pos} {g : Grid}
    (hw : p.color = .w) (h : pawnValid p b g = true) :
    b.1 = p.pos.1 - 1 ∨ b.1 = p.pos.1 - 2 := by
  obtain ⟨bx, by2⟩ := b
  obtain ⟨pk, pc, ⟨sx, sy⟩, pm, pf⟩ := p
  obtain rfl : pc = Color.w := hw
  unfold pawnValid at h
  dsimp only at h ⊢
  simp only [if_pos rfl, if_true] at h
  rw [ite_eq_iff] at h
  rcases h with ⟨hc, -⟩ | ⟨-, h⟩
  · simp only [Bool.and_eq_true, decide_eq_true_eq] at hc
    left
    omega
  rw [ite_eq_iff] at h
  rcases h with ⟨hc, -⟩ | ⟨-, h⟩
  · simp only [Bool.and_eq_true, decide_eq_true_eq] at hc
    right
    omega
  rw [ite_eq_iff] at h
  rcases h with ⟨hc, -⟩ | ⟨-, h⟩
  · simp only [Bool.and_eq_true, decide_eq_true_eq] at hc
    left
    omega
  · exact absurd h (by decide)

theorem pawnValid_white_double {p : Piece} {b : Pos} {g : Grid}
    (hw : p.color = .w) (h : pawnValid p b g = true)
    (hdx : (b.1 - p.pos.1).natAbs = 2) :
    p.pos.1 = 6 ∧ b.2 = p.pos.2 ∧ b.1 = 4 ∧
      getPiece g (5, p.pos.2) = none ∧ getPiece g b = none := by
  obtain ⟨bx, by2⟩ := b
  obtain ⟨pk, pc, ⟨sx, sy⟩, pm, pf⟩ := p
  obtain rfl : pc = Color.w := hw
  unfold pawnValid at h
  dsimp only at h hdx ⊢
  simp only [if_pos rfl, if_true] at h
  rw [ite_eq_iff] at h
  rcases h with ⟨hc, -⟩ | ⟨-, h⟩
  · simp only [Bool.and_eq_true, decide_eq_true_eq] at hc
    omega
  rw [ite_eq_iff] at h
  rcases h with ⟨hc, -⟩ | ⟨-, h⟩
  · simp only [Bool.and_eq_true, decide_eq_true_eq,
      Option.isNone_iff_eq_none] at hc
    obtain ⟨⟨⟨⟨hr, he⟩, hx⟩, hmid⟩, hend⟩ := hc
    have h5 : sx + -1 = 5 := by omega
    refine ⟨hr, he, by omega, ?_, hend⟩
    rw [← h5]
    exact hmid
  rw [ite_eq_iff] at h
  rcases h with ⟨hc, -⟩ | ⟨-, h⟩
  · simp only [Bool.and_eq_true, decide_eq_true_eq] at hc
    omega
  · exact absurd h (by decide)

theorem mpSuccess_armed {g : Grid} {a b : Pos} {c : Color} {p : Piece} {q : Pos}
    (harm : armedPawnOfAt c (mpSuccessGrid g a b c p) q = true) :
    q = b ∧ p.kind = .pawn ∧ p.color = c ∧ (b.1 - a.1).natAbs = 2 := by
  unfold armedPawnOfAt at harm
  cases hv : mpSuccessGrid g a b c p q with
  | none => rw [hv] at harm; simp at harm
  | some v =>
    rw [hv] at harm
    simp only [Bool.and_eq_true, decide_eq_true_eq] at harm
    obtain ⟨⟨hk, hcolor⟩, hflag⟩ := harm
    rcases mpSuccess_cell hv with ⟨hqb, hab, hveq⟩ | ⟨_, _, _, hrk, _⟩ | ⟨hqa, hcf⟩
    · subst hveq
      have hk2 : p.kind = .pawn := by rw [← mpMover_kind a b p]; exact hk
      have hc2 : p.color = c := by rw [← mpMover_color a b p]; exact hcolor
      have hf2 := hflag
      rw [show ({ mpMover a b p with hasMoved := true } : Piece).epFlag
          = (mpMover a b p).epFlag from rfl, mpMover_epFlag, if_pos hk2] at hf2
      exact ⟨hqb, hk2, hc2, of_decide_eq_true hf2⟩
    · rw [hrk] at hk
      exact absurd hk (by decide)
    · obtain ⟨w, hw, hcase⟩ := clearFlags_cell hcf
      rcases hcase with ⟨hwk, hwc, rfl⟩ | ⟨hnot, rfl⟩
      · simp at hflag
      · exact absurd ⟨hk, hcolor⟩ hnot

theorem mpSuccess_armed_other {g : Grid} {a b : Pos} {c c' : Color} {p : Piece} {q : Pos}
    (hcc : c' ≠ p.color)
    (harm : armedPawnOfAt c' (mpSuccessGrid g a b c p) q = true) :
    armedPawnOfAt c' g q = true := by
  unfold armedPawnOfAt at harm ⊢
  cases hv : mpSuccessGrid g a b c p q with
  | none => rw [hv] at harm; simp at harm
  | some v =>
    rw [hv] at harm
    simp only [Bool.and_eq_true, decide_eq_true_eq] at harm
    obtain ⟨⟨hk, hcolor⟩, hflag⟩ := harm
    rcases mpSuccess_cell hv with ⟨hqb, hab, hveq⟩ | ⟨_, _, _, hrk, _⟩ | ⟨hqa, hcf⟩
    · subst hveq
      rw [show ({ mpMover a b p with hasMoved := true } : Piece).color
          = (mpMover a b p).color from rfl, mpMover_color] at hcolor
      exact absurd hcolor.symm hcc
    · rw [hrk] at hk
      exact absurd hk (by decide)
    · obtain ⟨w, hw, hcase⟩ := clearFlags_cell hcf
      rcases hcase with ⟨hwk, hwc, rfl⟩ | ⟨hnot, rfl⟩
      · simp at hflag
      · rw [hw]
        simp [hk, hcolor, hflag]

theorem mpSuccess_pawn_cases {g : Grid} {a b : Pos} {c : Color} {p : Piece} {q : Pos}
    (hp : pawnOfAt .w (mpSuccessGrid g a b c p) q = true) :
    (q = b ∧ p.kind = .pawn ∧ p.color = .w) ∨ pawnOfAt .w g q = true := by
  unfold pawnOfAt at hp ⊢
  cases hv : mpSuccessGrid g a b c p q with
  | none => rw [hv] at hp; simp at hp
  | some v =>
    rw [hv] at hp
    simp only [Bool.and_eq_true, decide_eq_true_eq] at hp
    obtain ⟨hk, hcolor⟩ := hp
    rcases mpSuccess_cell hv with ⟨hqb, hab, hveq⟩ | ⟨_, _, _, hrk, _⟩ | ⟨hqa, hcf⟩
    · subst hveq
      refine Or.inl ⟨hqb, ?_, ?_⟩
      · rw [← mpMover_kind a b p]; exact hk
      · rw [← mpMover_color a b p]; exact hcolor
    · rw [hrk] at hk
      exact absurd hk (by decide)
    · obtain ⟨w, hw, hcase⟩ := clearFlags_cell hcf
      rcases hcase with ⟨hwk, hwc, rfl⟩ | ⟨hnot, rfl⟩
      · right
        rw [hw]
        have hwcw : w.color = Color.w := hcolor
        simp [hwk, hwcw]
      · right
        rw [hw]
        simp [hk, hcolor]

theorem mpSuccess_sync {g : Grid} {a b : Pos} {c : Color} {p : Piece}
    (hs : syncB g = true) : syncB (mpSuccessGrid g a b c p) = true := by
  unfold syncB
  rw [List.all_eq_true]
  intro q hq
  cases hv : mpSuccessGrid g a b c p q with
  | none => simp
  | some v =>
    rcases mpSuccess_cell hv with ⟨hqb, hab, hveq⟩ | ⟨_, _, _, _, hvp⟩ | ⟨hqa, hcf⟩
    · subst hveq
      simp only [decide_eq_true_eq]
      rw [show ({ mpMover a b p with hasMoved := true } : Piece).pos
          = (mpMover a b p).pos from rfl, mpMover_pos]
      exact hqb.symm
    · simp only [decide_eq_true_eq]
      exact hvp
    · obtain ⟨w, hw2, hcase⟩ := clearFlags_cell hcf
      have hwpos : w.pos = q :=
        syncB_spec hs (mem_allSquares.mp hq) hw2
      simp only [decide_eq_true_eq]
      rcases hcase with ⟨_, _, rfl⟩ | ⟨_, rfl⟩
      · exact hwpos
      · exact hwpos

/-- One completed move by color `c`: the UI calls `move_piece` with on-board
squares (clicks are translated to coordinates in `[0,8)`), it returns
`True`, and the board advances. -/
def StepOk (s s' : Game) (c : Color) : Prop :=
  ∃ a b : Pos, inB a = true ∧ inB b = true ∧ movePiece s a b c = .ok (true, s')

/-- Alternating sequences of completed moves: `Plays s c t c'` says the game
can go from state `s` with `c` to move to state `t` with `c'` to move. -/
inductive Plays : Game → Color → Game → Color → Prop
  | refl (s : Game) (c : Color) : Plays s c s c
  | step {s s' t : Game} {c c' : Color} :
      StepOk s s' c → Plays s' c.opp t c' → Plays s c t c'

/-- The state of the en-passant window for file `f`: pieces sit on the
squares they record, no white pawn is on row 7 or on `(6, f)`, and no armed
white pawn is on `(4, f)`. -/
def epWindowInv (f : Int) (g : Grid) : Prop :=
  syncB g = true ∧ noWPawnRow7 g = true ∧
    pawnOfAt .w g (6, f) = false ∧ armedPawnOfAt .w g (4, f) = false

theorem epStep_main {f : Int} {s s' : Game} {c : Color}
    (hsync : syncB s.grid = true) (h7 : noWPawnRow7 s.grid = true)
    (h6 : pawnOfAt .w s.grid (6, f) = false)
    (hstep : StepOk s s' c) :
    syncB s'.grid = true ∧ noWPawnRow7 s'.grid = true ∧
      pawnOfAt .w s'.grid (6, f) = false ∧
      (c = .w → armedPawnOfAt .w s'.grid (4, f) = false) ∧
      (armedPawnOfAt .w s.grid (4, f) = false → c = .b →
        armedPawnOfAt .w s'.grid (4, f) = false) := by
  obtain ⟨a, b, hba, hbb, hmp⟩ := hstep
  obtain ⟨ax, ay⟩ := a
  obtain ⟨bx, by2⟩ := b
  have hbounds : 0 ≤ ax ∧ ax < 8 ∧ 0 ≤ ay ∧ ay < 8 := inB_iff.mp hba
  cases hga : getPiece s.grid (ax, ay) with
  | none =>
      rw [mp_guard_none hga] at hmp
      simp at hmp
  | some p =>
      have hpos : p.pos = (ax, ay) := syncB_spec hsync hba (raw_of_getPiece_some hga)
      obtain ⟨hpc, hval, hchk, rfl⟩ := mp_true_shape hga hpos hbb hmp
      dsimp only
      have hvalidpawn : p.kind = .pawn → pawnValid p (bx, by2) s.grid = true := by
        intro hk
        unfold validF at hval
        rw [hk] at hval
        have h2 : pureValid p (bx, by2) s.grid = true :=
          ((Prod.mk.injEq .. ▸ (Except.ok.injEq .. ▸ hval)).1).symm ▸ rfl
        unfold pureValid at h2
        rw [hk] at h2
        exact h2
      have hrawa : s.grid (ax, ay) = some p := raw_of_getPiece_some hga
      have hwp_at_a : p.kind = .pawn → p.color = .w →
          pawnOfAt .w s.grid (ax, ay) = true := by
        intro hk hw
        unfold pawnOfAt
        rw [hrawa]
        simp [hk, hw]
      refine ⟨mpSuccess_sync hsync, ?_, ?_, ?_, ?_⟩
      · -- no white pawn reaches row 7
        unfold noWPawnRow7
        rw [List.all_eq_true]
        intro q hq
        by_cases h7q : q.1 = 7
        · cases hpq : pawnOfAt .w (mpSuccessGrid s.grid (ax, ay) (bx, by2) c p) q with
          | false => simp [hpq]
          | true =>
            exfalso
            rcases mpSuccess_pawn_cases hpq with ⟨hqb, hpk, hpw⟩ | hold
            · subst hqb
              have hd := pawnValid_white_dx hpw (hvalidpawn hpk)
              rw [hpos] at hd
              dsimp only at hd h7q
              rcases hd with hd | hd <;> omega
            · rw [noWPawnRow7_spec h7 (mem_allSquares.mp hq) h7q] at hold
              exact absurd hold (by decide)
        · simp [h7q]
      · -- no white pawn arrives on (6, f)
        cases hpq : pawnOfAt .w (mpSuccessGrid s.grid (ax, ay) (bx, by2) c p) (6, f) with
        | false => rfl
        | true =>
          exfalso
          rcases mpSuccess_pawn_cases hpq with ⟨hqb, hpk, hpw⟩ | hold
          · obtain ⟨hb1, hb2⟩ := Prod.mk.injEq .. ▸ hqb
            have hd := pawnValid_white_dx hpw (hvalidpawn hpk)
            rw [hpos] at hd
            dsimp only at hd
            have hax7 : ax = 7 := by rcases hd with hd | hd <;> omega
            have := hwp_at_a hpk hpw
            rw [noWPawnRow7_spec h7 hba hax7] at this
            exact absurd this (by decide)
          · rw [h6] at hold
            exact absurd hold (by decide)
      · -- a white mover never lands armed on (4, f)
        intro hcw
        cases hpq : armedPawnOfAt .w (mpSuccessGrid s.grid (ax, ay) (bx, by2) c p) (4, f) with
        | false => rfl
        | true =>
          exfalso
          subst hcw
          obtain ⟨hqb, hpk, hpw, hdx⟩ := mpSuccess_armed hpq
          obtain ⟨hb1, hb2⟩ := Prod.mk.injEq .. ▸ hqb
          have hdb := pawnValid_white_double hpw (hvalidpawn hpk)
            (by rw [hpos]; dsimp only; dsimp only at hdx; exact hdx)
          rw [hpos] at hdb
          dsimp only at hdb
          obtain ⟨hax6, hby2, -, -, -⟩ := hdb
          have hwp := hwp_at_a hpk hpw
          have h66 : pawnOfAt .w s.grid (ax, ay) = pawnOfAt .w s.grid (6, f) := by
            rw [hax6, ← hby2, hb2]
          rw [h66, h6] at hwp
          exact absurd hwp (by decide)
      · -- a black move never arms a white pawn
        intro h4 hcb
        cases hpq : armedPawnOfAt .w (mpSuccessGrid s.grid (ax, ay) (bx, by2) c p) (4, f) with
        | false => rfl
        | true =>
          exfalso
          have hcc : Color.w ≠ p.color := by rw [hpc, hcb]; decide
          have harm := mpSuccess_armed_other hcc hpq
          rw [h4] at harm
          exact absurd harm (by decide)

theorem epWindowInv_step {f : Int} {s s' : Game} {c : Color}
    (hinv : epWindowInv f s.grid) (hstep : StepOk s s' c) :
    epWindowInv f s'.grid := by
  obtain ⟨hsync, h7, h6, h4⟩ := hinv
  obtain ⟨hs, h7n, h6n, hw, hb⟩ := epStep_main hsync h7 h6 hstep
  refine ⟨hs, h7n, h6n, ?_⟩
  cases c with
  | w => exact hw rfl
  | b => exact hb h4 rfl

theorem epWindowInv_plays {f : Int} {s t : Game} {c c' : Color}
    (hp : Plays s c t c') (hinv : epWindowInv f s.grid) :
    epWindowInv f t.grid := by
  induction hp with
  | refl => exact hinv
  | step hstep _ ih => exact ih (epWindowInv_step hinv hstep)

/-- The en-passant clause of `Pawn.is_valid_move` accepts: a black pawn on
`(4, g2)`, file-adjacent to `f`, may move diagonally to an empty `(5, f)`
when an armed white pawn stands on `(4, f)`. -/
theorem pawnValid_black_ep {bp : Piece} {f g2 : Int} {grid : Grid}
    (hc : bp.color = .b) (hp : bp.pos = (4, g2)) (hadj : (g2 - f).natAbs = 1)
    (hempty : getPiece grid (5, f) = none)
    {adj : Piece} (hadjp : getPiece grid (4, f) = some adj)
    (hak : adj.kind = .pawn) (hac : adj.color = .w) (haf : adj.epFlag = true) :
    pawnValid bp (5, f) grid = true := by
  obtain ⟨bk, bc, bpos, bm, bf⟩ := bp
  obtain rfl : bc = .b := hc
  obtain rfl : bpos = (4, g2) := hp
  unfold pawnValid
  dsimp only
  rw [if_neg (by simp; omega)]
  rw [if_neg (by simp)]
  rw [if_pos (by simp; omega)]
  rw [hempty, hadjp]
  simp [hak, hac, haf]

/-- The same diagonal move is refused when no armed white pawn stands on
`(4, f)` (and `(5, f)` is empty, so the plain-capture clause does not fire
either). -/
theorem pawnValid_black_ep_false {bp : Piece} {f g2 : Int} {grid : Grid}
    (hc : bp.color = .b) (hp : bp.pos = (4, g2)) (hadj : (g2 - f).natAbs = 1)
    (hfB : inB ((4 : Int), f) = true)
    (hempty : getPiece grid (5, f) = none)
    (hnoarm : armedPawnOfAt .w grid (4, f) = false) :
    pawnValid bp (5, f) grid = false := by
  obtain ⟨bk, bc, bpos, bm, bf⟩ := bp
  obtain rfl : bc = .b := hc
  obtain rfl : bpos = (4, g2) := hp
  unfold pawnValid
  dsimp only
  rw [if_neg (by simp; omega)]
  rw [if_neg (by simp)]
  rw [if_pos (by simp; omega)]
  rw [hempty]
  cases hraw : grid ((4 : Int), f) with
  | none =>
      rw [show getPiece grid ((4 : Int), f) = none from
        (getPiece_eq_raw grid _ hfB).trans hraw]
  | some adj =>
      rw [show getPiece grid ((4 : Int), f) = some adj from
        (getPiece_eq_raw grid _ hfB).trans hraw]
      unfold armedPawnOfAt at hnoarm
      rw [hraw] at hnoarm
      dsimp only at hnoarm ⊢
      cases hadjc : adj.color with
      | b => simp [hadjc]
      | w =>
          rw [hadjc] at hnoarm
          simpa using hnoarm

theorem doubleAdvance_facts {s0 s1 : Game} {f : Int} {p : Piece}
    (hsync : syncB s0.grid = true) (h7 : noWPawnRow7 s0.grid = true)
    (hf : 0 ≤ f ∧ f < 8)
    (hga : getPiece s0.grid ((6 : Int), f) = some p) (hpk : p.kind = .pawn)
    (hwd : movePiece s0 ((6 : Int), f) ((4 : Int), f) .w = .ok (true, s1)) :
    (∃ adj, getPiece s1.grid ((4 : Int), f) = some adj ∧
        adj.kind = .pawn ∧ adj.color = .w ∧ adj.epFlag = true) ∧
      getPiece s1.grid ((5 : Int), f) = none ∧
      syncB s1.grid = true ∧ noWPawnRow7 s1.grid = true ∧
      pawnOfAt .w s1.grid ((6 : Int), f) = false := by
  have hba : inB ((6 : Int), f) = true :=
    inB_iff.mpr ⟨by norm_num, by norm_num, hf.1, hf.2⟩
  have hbb : inB ((4 : Int), f) = true :=
    inB_iff.mpr ⟨by norm_num, by norm_num, hf.1, hf.2⟩
  have hb5 : inB ((5 : Int), f) = true :=
    inB_iff.mpr ⟨by norm_num, by norm_num, hf.1, hf.2⟩
  have hpos : p.pos = (6, f) := syncB_spec hsync hba (raw_of_getPiece_some hga)
  obtain ⟨hpw, hval, hchk, hs1eq⟩ := mp_true_shape hga hpos hbb hwd
  have hvp : pawnValid p ((4 : Int), f) s0.grid = true := by
    unfold validF at hval
    rw [hpk] at hval
    have h2 : pureValid p ((4 : Int), f) s0.grid = true :=
      ((Prod.mk.injEq .. ▸ (Except.ok.injEq .. ▸ hval)).1).symm ▸ rfl
    unfold pureValid at h2
    rw [hpk] at h2
    exact h2
  have hdb := pawnValid_white_double hpw hvp (by rw [hpos]; dsimp only; decide)
  rw [hpos] at hdb
  obtain ⟨-, -, -, h5f, h4f⟩ := hdb
  dsimp only at h5f
  have hs1g : s1.grid = mpSuccessGrid s0.grid (6, f) (4, f) .w p := by rw [hs1eq]
  have hab : ¬(((6 : Int), f) = ((4 : Int), f)) := by simp
  have hcell4 : s1.grid ((4 : Int), f) =
      some { mpMover (6, f) (4, f) p with hasMoved := true } := by
    rw [hs1g]
    unfold mpSuccessGrid
    rw [if_neg hab, setCell_same]
  refine ⟨⟨_, (getPiece_eq_raw _ _ hbb).trans hcell4, ?_, ?_, ?_⟩, ?_, ?_, ?_, ?_⟩
  · show (mpMover (6, f) (4, f) p).kind = .pawn
    rw [mpMover_kind]; exact hpk
  · show (mpMover (6, f) (4, f) p).color = .w
    rw [mpMover_color]; exact hpw
  · show (mpMover (6, f) (4, f) p).epFlag = true
    rw [mpMover_epFlag, if_pos hpk]
    dsimp only
    rfl
  · have hc5 : s1.grid ((5 : Int), f) = none := by
      cases hc : s1.grid ((5 : Int), f) with
      | none => rfl
      | some v =>
          exfalso
          rw [hs1g] at hc
          rcases mpSuccess_cell hc with ⟨hqb, -, -⟩ | ⟨-, -, hking, -, -⟩ | ⟨-, hcf⟩
          · exact absurd (congrArg Prod.fst hqb) (by norm_num)
          · rw [hpk] at hking; exact absurd hking (by decide)
          · obtain ⟨w, hw, -⟩ := clearFlags_cell hcf
            rw [getPiece_none_raw hb5 h5f] at hw
            simp at hw
    exact (getPiece_eq_raw _ _ hb5).trans hc5
  · rw [hs1g]; exact mpSuccess_sync hsync
  · rw [hs1g]
    unfold noWPawnRow7
    rw [List.all_eq_true]
    intro q hq
    by_cases h7q : q.1 = 7
    · cases hpq : pawnOfAt .w (mpSuccessGrid s0.grid (6, f) (4, f) .w p) q with
      | false => simp [hpq]
      | true =>
        exfalso
        rcases mpSuccess_pawn_cases hpq with ⟨hqb, -, -⟩ | hold
        · rw [hqb] at h7q; exact absurd h7q (by norm_num)
        · rw [noWPawnRow7_spec h7 (mem_allSquares.mp hq) h7q] at hold
          exact absurd hold (by decide)
    · simp [h7q]
  · unfold pawnOfAt
    cases hc : s1.grid ((6 : Int), f) with
    | none => rfl
    | some v =>
        exfalso
        rw [hs1g] at hc
        rcases mpSuccess_cell hc with ⟨hqb, -, -⟩ | ⟨-, -, hking, -, -⟩ | ⟨hqa, -⟩
        · exact absurd (congrArg Prod.fst hqb) (by norm_num)
        · rw [hpk] at hking; exact absurd hking (by decide)
        · exact hqa rfl

/-- C5: after White double-advances a pawn from rank 6 to rank 4 on file
`f` (a successful `move_piece` from `(6, f)` to `(4, f)`), a Black pawn on
an adjacent file at rank 4 passes `Pawn.is_valid_move` for the en-passant
capture onto the empty square `(5, f)` immediately afterwards; and if Black
first completes any other move, then after White's reply and any further
play the same capture is refused by `Pawn.is_valid_move` whenever `(5, f)`
is empty (so the diagonal move could only be the en-passant capture).
Preconditions: pieces sit on their recorded squares and no white pawn is on
rank 7 (both hold for all positions reachable from the initial board). -/
theorem c5_en_passant_one_ply_window {s0 s1 : Game} {f : Int} {p : Piece}
    (hsync : syncB s0.grid = true) (h7 : noWPawnRow7 s0.grid = true)
    (hf : 0 ≤ f ∧ f < 8)
    (hga : getPiece s0.grid ((6 : Int), f) = some p) (hpk : p.kind = .pawn)
    (hwd : movePiece s0 ((6 : Int), f) ((4 : Int), f) .w = .ok (true, s1)) :
    (∀ g2 : Int, ∀ bp : Piece, (g2 - f).natAbs = 1 → bp.color = .b →
        bp.pos = (4, g2) → pawnValid bp ((5 : Int), f) s1.grid = true) ∧
      (∀ s2 s3 t : Game, ∀ c' : Color, ∀ g2 : Int, ∀ bp : Piece,
        StepOk s1 s2 .b → StepOk s2 s3 .w → Plays s3 .b t c' →
        (g2 - f).natAbs = 1 → bp.color = .b → bp.pos = (4, g2) →
        getPiece t.grid ((5 : Int), f) = none →
        pawnValid bp ((5 : Int), f) t.grid = false) := by
  obtain ⟨⟨adj, hadjp, hak, hac, haf⟩, h5none, hsync1, h71, h61⟩ :=
    doubleAdvance_facts hsync h7 hf hga hpk hwd
  constructor
  · intro g2 bp hadj hc hp
    exact pawnValid_black_ep hc hp hadj h5none hadjp hak hac haf
  · intro s2 s3 t c' g2 bp hb1 hw2 hplays hadj hc hp hempty
    obtain ⟨hsync2, h72, h62, -, -⟩ := epStep_main hsync1 h71 h61 hb1
    obtain ⟨hsync3, h73, h63, hw4, -⟩ := epStep_main hsync2 h72 h62 hw2
    have hinv3 : epWindowInv f s3.grid := ⟨hsync3, h73, h63, hw4 rfl⟩
    have hinvt := epWindowInv_plays hplays hinv3
    have hfB : inB ((4 : Int), f) = true :=
      inB_iff.mpr ⟨by norm_num, by norm_num, hf.1, hf.2⟩
    exact pawnValid_black_ep_false hc hp hadj hfB hempty hinvt.2.2.2

def c5P : Piece := ⟨.pawn, .w, (6, 4), false, false⟩

def c5K : Piece := ⟨.king, .w, (7, 4), false, false⟩

def c5bp : Piece := ⟨.pawn, .b, (4, 5), false, false⟩

def c5bk : Piece := ⟨.king, .b, (0, 4), false, false⟩

def c5g0 : Grid := gridOf [c5P, c5K, c5bp, c5bk]

def c5s0 : Game := ⟨c5g0, none⟩

def c5s1 : Game := ⟨mpSuccessGrid c5g0 (6, 4) (4, 4) .w c5P, some c5g0⟩

def c5s2 : Game := ⟨mpSuccessGrid c5s1.grid (0, 4) (0, 3) .b c5bk, some c5s1.grid⟩

def c5pw1 : Piece := ⟨.pawn, .w, (4, 4), true, true⟩

def c5s3 : Game := ⟨mpSuccessGrid c5s2.grid (4, 4) (3, 4) .w c5pw1, some c5s2.grid⟩

/-- Witness for C5 on a concrete game: White plays e2–e4-style
`(6,4) → (4,4)`, Black answers with a king move, White pushes the pawn on;
the en-passant capture to `(5, 4)` is pawn-legal right after the double
advance and refused two plies later. -/
theorem c5_en_passant_one_ply_window_witness :
    pawnValid ⟨.pawn, .b, (4, 5), false, false⟩ ((5 : Int), 4) c5s1.grid = true ∧
      pawnValid ⟨.pawn, .b, (4, 5), false, false⟩ ((5 : Int), 4) c5s3.grid = false := by
  have h := @c5_en_passant_one_ply_window c5s0 c5s1 4 c5P rfl rfl (by decide)
    rfl rfl rfl
  exact ⟨h.1 5 ⟨.pawn, .b, (4, 5), false, false⟩ (by decide) rfl rfl,
    h.2 c5s2 c5s3 c5s3 .b 5 ⟨.pawn, .b, (4, 5), false, false⟩
      ⟨(0, 4), (0, 3), rfl, rfl, rfl⟩ ⟨(4, 4), (3, 4), rfl, rfl, rfl⟩
      (Plays.refl c5s3 .b) (by decide) rfl rfl rfl⟩

/-- C6: a successful `move_piece` followed immediately by `undo_move`
restores the exact pre-move board (the grid of the pre-move state, every
piece value included), and clears the snapshot.  This covers every
successful move: castling and en-passant variants included, since
`save_state` runs before any mutation. -/
theorem c6_move_then_undo {s s' : Game} {a b : Pos} {c : Color}
    (h : movePiece s a b c = .ok (true, s')) :
    undoMove s' = ⟨s.grid, none⟩ := by
  unfold undoMove
  rw [mp_true_lastState h]

def c6s1 : Game :=
  ⟨mpSuccessGrid setupGrid (6, 4) (4, 4) .w ⟨.pawn, .w, (6, 4), false, false⟩,
    some setupGrid⟩

/-- Witness for C6: the double pawn advance `(6,4) → (4,4)` from the
initial position, then undo. -/
theorem c6_move_then_undo_witness :
    undoMove c6s1 = ⟨setupGrid, none⟩ :=
  @c6_move_then_undo ⟨setupGrid, none⟩ c6s1 (6, 4) (4, 4) .w rfl

/-- C8: `is_valid_move` is pure with respect to board contents.  For every
piece that sits on the square its `position` records and every in-board
destination (the only calls the engine makes), the legality test returns
the board it was given — the king's castling check-probes mutate it but
restore it exactly — and repeating the call on the returned board yields
the same verdict and board.  `n + 2` is any fuel bound of at least 2 for
the (never reached, see `chkF_eq_inCheck`) mutual recursion with
`is_king_in_check`. -/
theorem c8_is_valid_move_pure (n : Nat) (p : Piece) (endP : Pos) (g : Grid)
    (hsync : getPiece g p.pos = some p) (hend : inB endP = true) :
    ∃ r : Bool, validF (n + 2) p endP g = .ok (r, g) ∧
      ∀ r2 : Bool, ∀ g2 : Grid, validF (n + 2) p endP g = .ok (r2, g2) →
        validF (n + 2) p endP g2 = .ok (r2, g2) := by
  obtain ⟨r, hr⟩ := validF_pure n p endP g hsync hend
  refine ⟨r, hr, ?_⟩
  intro r2 g2 h2
  rw [hr] at h2
  injection h2 with h3
  obtain ⟨rfl, rfl⟩ := Prod.mk.injEq .. ▸ h3
  exact hr

def c8K : Piece := ⟨.king, .w, (7, 4), false, false⟩

def c8R : Piece := ⟨.rook, .w, (7, 7), false, false⟩

def c8bk : Piece := ⟨.king, .b, (0, 0), true, false⟩

def c8g : Grid := gridOf [c8K, c8R, c8bk]

/-- Witness for C8: the white king's kingside castling move `(7,4) → (7,6)`
on a board where the probes actually run. -/
theorem c8_is_valid_move_pure_witness :
    getPiece c8g c8K.pos = some c8K ∧ inB ((7 : Int), 6) = true ∧
      (∃ r : Bool, validF (4 + 2) c8K ((7 : Int), 6) c8g = .ok (r, c8g) ∧
        ∀ r2 : Bool, ∀ g2 : Grid,
          validF (4 + 2) c8K ((7 : Int), 6) c8g = .ok (r2, g2) →
          validF (4 + 2) c8K ((7 : Int), 6) g2 = .ok (r2, g2)) :=
  ⟨rfl, rfl, c8_is_valid_move_pure 4 c8K ((7 : Int), 6) c8g rfl rfl⟩

def c1K : Piece := ⟨.king, .w, (4, 4), true, false⟩

def c1P : Piece := ⟨.pawn, .w, (3, 4), false, false⟩

def c1R : Piece := ⟨.rook, .b, (0, 4), false, false⟩

def c1B : Piece := ⟨.bishop, .b, (2, 3), false, false⟩

def c1bk : Piece := ⟨.king, .b, (7, 0), false, false⟩

def c1g : Grid := gridOf [c1K, c1P, c1R, c1B, c1bk]

/-- C1: refuted as stated — a move that leaves the mover's own king in
check is not always answered with `False`.  On this board the white pawn's
diagonal capture `(3,4) → (2,3)` exposes the white king to the rook on
`(0,4)`; the revert path then runs the en-passant-undo branch, which reads
the local `direction` that only the castling branch ever binds, so the call
raises `UnboundLocalError` instead of returning `False`. -/
theorem c1_check_revert_crashes :
    movePiece ⟨c1g, none⟩ ((3 : Int), 4) ((2 : Int), 3) .w = .error .nameError := rfl

def c2P : Piece := ⟨.pawn, .w, (6, 4), false, false⟩

def c2K : Piece := ⟨.king, .w, (6, 7), true, false⟩

def c2R : Piece := ⟨.rook, .b, (6, 0), false, false⟩

def c2bk : Piece := ⟨.king, .b, (0, 0), false, false⟩

def c2g : Grid := gridOf [c2P, c2K, c2R, c2bk]

/-- C2: refuted as stated — a rejected move is not atomic.  The double
advance `(6,4) → (4,4)` is rejected (it opens the white king to the rook on
`(6,0)`), `move_piece` returns `False`, yet the pawn written back to
`(6,4)` carries `can_be_captured_en_passant = True`: the flag clearing and
double-advance arming of lines 301–309 are never reverted.  The original
board held the pawn unarmed. -/
theorem c2_rejection_leaks_ep_flag :
    (movePiece ⟨c2g, none⟩ ((6 : Int), 4) ((4 : Int), 4) .w).map
        (fun r => (r.1, r.2.grid ((6 : Int), 4))) =
      .ok (false, some ⟨.pawn, .w, (6, 4), false, true⟩) ∧
      c2g ((6 : Int), 4) = some ⟨.pawn, .w, (6, 4), false, false⟩ := ⟨rfl, rfl⟩

def c3K : Piece := ⟨.king, .w, (4, 5), true, false⟩

def c3P : Piece := ⟨.pawn, .w, (3, 5), false, false⟩

def c3bp : Piece := ⟨.pawn, .b, (3, 4), false, true⟩

def c3R1 : Piece := ⟨.rook, .b, (5, 0), false, false⟩

def c3R2 : Piece := ⟨.rook, .b, (3, 0), false, false⟩

def c3N : Piece := ⟨.knight, .b, (2, 5), false, false⟩

def c3bk : Piece := ⟨.king, .b, (2, 6), true, false⟩

def c3g : Grid := gridOf [c3K, c3P, c3bp, c3R1, c3R2, c3N, c3bk]

set_option maxRecDepth 100000 in
/-- C3: refuted as stated — `is_game_over` can report checkmate while a
legal move exists.  Here White is in check from the rook on `(3,0)` and the
only escape is the en-passant capture `(3,5) → (2,4)` of the armed black
pawn: the scan of `is_game_over` simulates a trial move without removing
the en-passant-captured pawn, so the capture appears to leave White in
check and the scan reports checkmate, while `move_piece` completes the very
same move with `True`. -/
theorem c3_game_over_misses_en_passant :
    (igo c3g .w).map Prod.fst = .ok .checkmate ∧
      (movePiece ⟨c3g, none⟩ ((3 : Int), 5) ((2 : Int), 4) .w).map (fun r => r.1) =
        .ok true := ⟨rfl, rfl⟩

/-- The check test a castling probe performs: the king temporarily stands on
`(sx, y)` (its start square cleared) and `is_king_in_check` is consulted. -/
def probeInCheck (self : Piece) (sx sy : Int) (g : Grid) (y : Int) : Bool :=
  decide (inCheckOpt self.color
    (setCell (setCell g (sx, sy) none) (sx, y) (some self)) = some true)

theorem probeGo_val (n : Nat) (self : Piece) (sx sy rookY : Int) (g : Grid)
    (hkind : self.kind = .king)
    (hpos : self.pos = (sx, sy))
    (hsyb : inB (sx, sy) = true)
    (hsy : g (sx, sy) = some self)
    (l : List Int)
    (hl : ∀ y ∈ l, y ≠ rookY →
      y = sy ∨ (g (sx, y) = none ∧ inB (sx, y) = true ∧ y ≠ sy)) :
    probeGo (chkF (n + 1)) self sx sy rookY l g =
      .ok (l.all (fun y => decide (y = rookY) || !probeInCheck self sx sy g y),
        g) := by
  induction l with
  | nil => rfl
  | cons y rest ih =>
    have hrest : ∀ y2 ∈ rest, y2 ≠ rookY →
        y2 = sy ∨ (g (sx, y2) = none ∧ inB (sx, y2) = true ∧ y2 ≠ sy) :=
      fun y2 h2 => hl y2 (List.mem_cons_of_mem y h2)
    unfold probeGo
    rw [List.all_cons]
    by_cases hyr : y = rookY
    · rw [if_pos hyr, ih hrest]
      simp [hyr]
    · rw [if_neg hyr]
      have hy := hl y (List.mem_cons_self y rest) hyr
      have hkingat : (setCell (setCell g (sx, sy) none) (sx, y) (some self)) (sx, y)
          = some self := setCell_same ..
      have hyb : inB (sx, y) = true := by
        rcases hy with rfl | ⟨_, hb, _⟩
        · exact hsyb
        · exact hb
      have hfind := @findKing_isSome _ self.color _ _ hyb hkingat hkind rfl
      dsimp only
      rw [chkF_eq_inCheck]
      have hpic : probeInCheck self sx sy g y =
          decide (inCheckOpt self.color
            (setCell (setCell g (sx, sy) none) (sx, y) (some self)) = some true) :=
        rfl
      unfold inCheckOpt at hpic ⊢
      cases hfk : findKing (setCell (setCell g (sx, sy) none) (sx, y) (some self))
          self.color with
      | none => rw [hfk] at hfind; exact absurd hfind (by decide)
      | some kp =>
        rw [hfk] at hpic
        simp only [Option.map_some', Option.some.injEq] at hpic
        simp only [Option.map_some']
        have hrestore :
            setCell (setCell (setCell (setCell g (sx, sy) none) (sx, y) (some self))
              (sx, y) none) (sx, sy) (some self) = g := by
          funext q
          by_cases hq1 : q = (sx, sy)
          · subst hq1
            rw [setCell_same, hsy]
          · rw [setCell_other _ _ _ _ hq1]
            by_cases hq2 : q = (sx, y)
            · subst hq2
              rw [setCell_same]
              rcases hy with rfl | ⟨hnone, _, _⟩
              · exact absurd rfl hq1
              · exact hnone.symm
            · rw [setCell_other _ _ _ _ hq2, setCell_other _ _ _ _ hq2,
                setCell_other _ _ _ _ hq1]
        cases hchk : attackAny self.color kp allSquares
            (setCell (setCell g (sx, sy) none) (sx, y) (some self)) with
        | true =>
            rw [hchk] at hpic
            simp at hpic
            rw [if_pos rfl, hrestore]
            simp [hpic, hyr]
        | false =>
            rw [hchk] at hpic
            simp at hpic
            rw [if_neg (by simp), hrestore, ih hrest]
            simp [hpic, hyr]

/-- C4: the castling clause of `King.is_valid_move`, characterized.  For
any board and any castling-shaped request (two files sideways on the
king's own rank), the move is refused when the king has moved, when the
rook's home square does not hold an unmoved rook, or when a square
strictly between king and rook is occupied.  Once those guards pass —
and provided the probe squares `sy, sy + d, sy + 2d` other than the
rook's column lie on the board and, apart from the king's own square, are
empty (which the passed corridor test already gives whenever they stay on
the board) — the move is accepted exactly when every probe square EXCEPT
any equal to the rook's column `rookY` is free of check.  That exception
is the divergence from the claim: a landing (or transit) square equal to
`rookY` is never probed, so a king may castle into an attacked square
there (see the counterexample). -/
theorem c4_castling_conditions (n : Nat) (p : Piece) (sx sy ey d rookY : Int)
    (g : Grid)
    (hk : p.kind = .king) (hpos : p.pos = (sx, sy))
    (hdy : (ey - sy).natAbs = 2)
    (hd : d = if ey > sy then 1 else -1)
    (hrY : rookY = if d = 1 then 7 else 0) :
    (p.hasMoved = true → kvalF (n + 2) p (sx, ey) g = .ok (false, g)) ∧
      (getPiece g (sx, rookY) = none → kvalF (n + 2) p (sx, ey) g = .ok (false, g)) ∧
      (∀ r, getPiece g (sx, rookY) = some r → ¬(r.kind = .rook ∧ r.hasMoved = false) →
        kvalF (n + 2) p (sx, ey) g = .ok (false, g)) ∧
      ((pyRange (sy + d) rookY d).any (fun y => (getPiece g (sx, y)).isSome) = true →
        kvalF (n + 2) p (sx, ey) g = .ok (false, g)) ∧
      (inB (sx, sy) = true → g (sx, sy) = some p →
        (∀ y ∈ pyRange sy (sy + 3 * d) d, y ≠ rookY →
          y = sy ∨ (g (sx, y) = none ∧ inB (sx, y) = true ∧ y ≠ sy)) →
        p.hasMoved = false →
        ∀ r, getPiece g (sx, rookY) = some r → r.kind = .rook → r.hasMoved = false →
        (pyRange (sy + d) rookY d).any (fun y => (getPiece g (sx, y)).isSome) = false →
        kvalF (n + 2) p (sx, ey) g =
          .ok ((pyRange sy (sy + 3 * d) d).all
            (fun y => decide (y = rookY) || !probeInCheck p sx sy g y), g)) := by
  have hshape : ∀ res : Except PyError (Bool × Grid),
      (kvalGo (chkF (n + 1)) p (sx, ey) g = res) →
      kvalF (n + 2) p (sx, ey) g = res := by
    intro res h
    rw [show n + 2 = (n + 1) + 1 from rfl, kvalF_succ]
    exact h
  refine ⟨?_, ?_, ?_, ?_, ?_⟩
  · intro hm
    apply hshape
    unfold kvalGo
    rw [hpos]
    dsimp only
    rw [if_neg (by simp; omega)]
    rw [if_neg (by simp [hm])]
  · intro hrg
    by_cases hm : p.hasMoved = true
    · apply hshape
      unfold kvalGo
      rw [hpos]
      dsimp only
      rw [if_neg (by simp; omega)]
      rw [if_neg (by simp [hm])]
    · apply hshape
      unfold kvalGo
      rw [hpos]
      dsimp only
      rw [if_neg (by simp; omega)]
      rw [if_pos (by simp [Bool.not_eq_true] at hm ⊢; exact ⟨hm, hdy⟩)]
      rw [← hd, ← hrY, hrg]
  · intro r hrg hbad
    by_cases hm : p.hasMoved = true
    · apply hshape
      unfold kvalGo
      rw [hpos]
      dsimp only
      rw [if_neg (by simp; omega)]
      rw [if_neg (by simp [hm])]
    · apply hshape
      unfold kvalGo
      rw [hpos]
      dsimp only
      rw [if_neg (by simp; omega)]
      rw [if_pos (by simp [Bool.not_eq_true] at hm ⊢; exact ⟨hm, hdy⟩)]
      rw [← hd, ← hrY, hrg]
      dsimp only
      rw [if_neg ?hbadc]
      case hbadc =>
        simp only [Bool.and_eq_true, decide_eq_true_eq, Bool.not_eq_true']
        exact fun hc => hbad ⟨hc.1, by simpa using hc.2⟩
  · intro hcorr
    by_cases hm : p.hasMoved = true
    · apply hshape
      unfold kvalGo
      rw [hpos]
      dsimp only
      rw [if_neg (by simp; omega)]
      rw [if_neg (by simp [hm])]
    · cases hrg : getPiece g (sx, rookY) with
      | none =>
          apply hshape
          unfold kvalGo
          rw [hpos]
          dsimp only
          rw [if_neg (by simp; omega)]
          rw [if_pos (by simp [Bool.not_eq_true] at hm ⊢; exact ⟨hm, hdy⟩)]
          rw [← hd, ← hrY, hrg]
      | some r =>
          by_cases hgood : r.kind = .rook ∧ r.hasMoved = false
          · apply hshape
            unfold kvalGo
            rw [hpos]
            dsimp only
            rw [if_neg (by simp; omega)]
            rw [if_pos (by simp [Bool.not_eq_true] at hm ⊢; exact ⟨hm, hdy⟩)]
            rw [← hd, ← hrY, hrg]
            dsimp only
            rw [if_pos (by simp [hgood.1, hgood.2])]
            rw [if_pos hcorr]
          · apply hshape
            unfold kvalGo
            rw [hpos]
            dsimp only
            rw [if_neg (by simp; omega)]
            rw [if_pos (by simp [Bool.not_eq_true] at hm ⊢; exact ⟨hm, hdy⟩)]
            rw [← hd, ← hrY, hrg]
            dsimp only
            rw [if_neg ?hbad2]
            case hbad2 =>
              simp only [Bool.and_eq_true, decide_eq_true_eq, Bool.not_eq_true']
              exact fun hc => hgood ⟨hc.1, by simpa using hc.2⟩
  · intro hsxb hsyg hprobe hm r hrg hrk hrm hcorr
    apply hshape
    unfold kvalGo
    rw [hpos]
    dsimp only
    rw [if_neg (by simp; omega)]
    rw [if_pos (by simp [hm, hdy])]
    rw [← hd, ← hrY, hrg]
    dsimp only
    rw [if_pos (by simp [hrk, hrm])]
    rw [if_neg (by simp [hcorr])]
    exact probeGo_val n p sx sy rookY g hk hpos hsxb hsyg _ hprobe

def c4K : Piece := ⟨.king, .w, (7, 5), false, false⟩

def c4R : Piece := ⟨.rook, .w, (7, 7), false, false⟩

def c4bR : Piece := ⟨.rook, .b, (3, 7), false, false⟩

def c4bk : Piece := ⟨.king, .b, (0, 0), true, false⟩

def c4g : Grid := gridOf [c4K, c4R, c4bR, c4bk]

/-- Counterexample to C4 as stated: the white king on `(7,5)` castles to
`(7,7)` — the rook's own square — and `King.is_valid_move` accepts, even
though the landing square is attacked by the black rook on `(3,7)` (whose
own legality predicate accepts the capture move there): the probe loop
skips any probe square equal to the rook's column. -/
theorem c4_rook_square_probe_skipped :
    (kvalF 6 c4K ((7 : Int), 7) c4g).map (fun r => r.1) = .ok true ∧
      getPiece c4g ((3 : Int), 7) = some c4bR ∧
      rookValid c4bR ((7 : Int), 7) c4g = true ∧
      c4bR.color = .b ∧ c4K.color = .w := ⟨rfl, rfl, rfl, rfl, rfl⟩

def c4e1 : Piece := ⟨.king, .w, (7, 4), false, false⟩

/-- Witness for C4 (amended), twice: the corridor-occupied guard refuses
kingside castling from the standard initial position (bishop and knight
stand between king and rook), and on the counterexample board the
characterization shows the probe list `[5, 6, 7]` with its landing square
`7 = rookY` exempted. -/
theorem c4_castling_conditions_witness :
    kvalF (4 + 2) c4e1 ((7 : Int), 6) setupGrid = .ok (false, setupGrid) ∧
      kvalF (4 + 2) c4K ((7 : Int), 7) c4g =
        .ok ((pyRange 5 (5 + 3 * 1) 1).all
          (fun y => decide (y = (7 : Int)) || !probeInCheck c4K 7 5 c4g y),
          c4g) := by
  constructor
  · exact (c4_castling_conditions 4 c4e1 7 4 6 1 7 setupGrid rfl rfl
      (by decide) (by decide) (by decide)).2.2.2.1 rfl
  · exact (c4_castling_conditions 4 c4K 7 5 7 1 7 c4g rfl rfl (by decide)
      (by decide) (by decide)).2.2.2.2 rfl rfl (by decide) rfl c4R rfl rfl
      rfl rfl

def c7P : Piece := ⟨.pawn, .w, (4, 3), true, true⟩

def c7R : Piece := ⟨.rook, .w, (7, 0), false, false⟩

def c7K : Piece := ⟨.king, .w, (7, 4), false, false⟩

def c7bk : Piece := ⟨.king, .b, (0, 4), false, false⟩

def c7g : Grid := gridOf [c7P, c7R, c7K, c7bk]

/-- Counterexample to C7 as stated: White attempts the geometrically
illegal rook move `(7,0) → (5,1)`; `move_piece` rejects it, and the armed
white pawn on `(4,3)` keeps `can_be_captured_en_passant = True` — the
clearing loop runs only inside the `is_valid_move` acceptance branch, not
at the start of the attempt. -/
theorem c7_flags_survive_rejected_attempt :
    (movePiece ⟨c7g, none⟩ ((7 : Int), 0) ((5 : Int), 1) .w).map
        (fun r => (r.1, r.2.grid ((4 : Int), 3))) = .ok (false, some c7P) ∧
      c7P.epFlag = true := ⟨rfl, rfl⟩

/-- C7 (amended): the en-passant flags of the mover's color are cleared
only once the piece-level legality predicate accepts, not at the start of
the attempt.  (1) An attempt rejected by `is_valid_move` returns the board
exactly as it was — flags included.  (2) After a completed move by color
`c`, a `c`-pawn is armed only if it is the mover and it just advanced two
ranks: the clearing loop plus double-advance arming is the only path that
leaves a flag of the mover's color set. -/
theorem c7_flags_cleared_on_accept {s : Game} {a b : Pos} {c : Color}
    {p : Piece} (hga : getPiece s.grid a = some p) :
    (p.color = c → validF FUELC p b s.grid = .ok (false, s.grid) →
      movePiece s a b c = .ok (false, ⟨s.grid, some s.grid⟩)) ∧
      (∀ s' : Game, p.pos = a → inB b = true →
        movePiece s a b c = .ok (true, s') →
        ∀ q, armedPawnOfAt c s'.grid q = true →
          q = b ∧ p.kind = .pawn ∧ (b.1 - a.1).natAbs = 2) := by
  constructor
  · intro hc hval
    obtain ⟨ax, ay⟩ := a
    obtain ⟨bx, by2⟩ := b
    unfold movePiece
    rw [hga]
    dsimp only
    rw [if_neg (fun hne => hne hc)]
    rw [hval]
    dsimp only
    rw [if_neg (by simp)]
  · intro s' hpos hbb hmp q harm
    obtain ⟨hpc, hval, hchk, rfl⟩ := mp_true_shape hga hpos hbb hmp
    dsimp only at harm
    have h := mpSuccess_armed harm
    exact ⟨h.1, h.2.1, h.2.2.2⟩

/-- Witness for C7 (amended), part (1) at the rejected rook move of the
counterexample board: the state is returned with the snapshot taken and
the grid untouched. -/
theorem c7_flags_cleared_on_accept_witness :
    movePiece ⟨c7g, none⟩ ((7 : Int), 0) ((5 : Int), 1) .w =
      .ok (false, ⟨c7g, some c7g⟩) :=
  (@c7_flags_cleared_on_accept ⟨c7g, none⟩ (7, 0) (5, 1) .w c7R rfl).1 rfl rfl

def c9s1 : Game :=
  ⟨mpSuccessGrid setupGrid (6, 4) (4, 4) .w ⟨.pawn, .w, (6, 4), false, false⟩,
    some setupGrid⟩

/-- Counterexample to C9 as stated: after White's opening move the turn is
Black's; pressing the undo button restores the board AND returns the turn
to White — `main` decrements `player_turn` in its undo handler, so the turn
indicator IS flipped back, contrary to the claim that it stays with the
opponent. -/
theorem c9_undo_flips_turn :
    stepBack c9s1 .b = (⟨setupGrid, none⟩, .w) := rfl

/-- C9 (amended): whenever a snapshot exists, the undo button restores the
board to the snapshot, drops the snapshot, and flips the turn indicator
back to the player who made the undone move. -/
theorem c9_undo_restores_board_and_flips_turn {s : Game} {g : Grid}
    {t : Color} (h : s.lastState = some g) :
    stepBack s t = (⟨g, none⟩, t.opp) := by
  unfold stepBack undoMove
  rw [h]

/-- Witness for C9 (amended) on a minimal state carrying a snapshot. -/
theorem c9_undo_restores_board_and_flips_turn_witness :
    stepBack ⟨setupGrid, some setupGrid⟩ .b = (⟨setupGrid, none⟩, .w) :=
  @c9_undo_restores_board_and_flips_turn ⟨setupGrid, some setupGrid⟩
    setupGrid .b rfl

theorem getPiece_setCell_ne (g : Grid) (e q : Pos) (v : Option Piece)
    (h : q ≠ e) : getPiece (setCell g e v) q = getPiece g q := by
  unfold getPiece setCell
  rw [if_neg h]

theorem all_congr_bool {α : Type} (l : List α) (f f' : α → Bool)
    (h : ∀ x ∈ l, f x = f' x) : l.all f = l.all f' := by
  induction l with
  | nil => rfl
  | cons a t ih =>
      rw [List.all_cons, List.all_cons, h a (List.mem_cons_self a t),
        ih (fun x hx => h x (List.mem_cons_of_mem a hx))]

theorem rookValid_frame (p : Piece) (e : Pos) (g g' : Grid)
    (hg : ∀ q, q ≠ e → getPiece g q = getPiece g' q) :
    rookValid p e g = rookValid p e g' := by
  obtain ⟨pk, pc, ⟨sx, sy⟩, pm, pf⟩ := p
  obtain ⟨ex, ey⟩ := e
  unfold rookValid
  dsimp only
  by_cases h1 : sx = ex
  · subst h1
    conv_lhs => rw [if_neg (by simp), if_pos rfl]
    conv_rhs => rw [if_neg (by simp), if_pos rfl]
    apply all_congr_bool
    intro y hy
    have hyne : y ≠ ey := by
      by_cases hgt : ey > sy
      · rw [if_pos hgt] at hy
        unfold pyRange at hy
        rw [if_pos rfl] at hy
        have := mem_rangeUp.mp hy
        omega
      · rw [if_neg hgt] at hy
        unfold pyRange at hy
        rw [if_neg (by decide)] at hy
        have := mem_rangeDown.mp hy
        omega
    rw [hg (sx, y) (fun hc => hyne (congrArg Prod.snd hc))]
  · by_cases h2 : sy = ey
    · conv_lhs => rw [if_neg (by simp [h2]), if_neg h1]
      conv_rhs => rw [if_neg (by simp [h2]), if_neg h1]
      apply all_congr_bool
      intro x hx
      have hxne : x ≠ ex := by
        by_cases hgt : ex > sx
        · rw [if_pos hgt] at hx
          unfold pyRange at hx
          rw [if_pos rfl] at hx
          have := mem_rangeUp.mp hx
          omega
        · rw [if_neg hgt] at hx
          unfold pyRange at hx
          rw [if_neg (by decide)] at hx
          have := mem_rangeDown.mp hx
          omega
      rw [hg (x, sy) (fun hc => hxne (congrArg Prod.fst hc))]
    · conv_lhs => rw [if_pos (by simp [h1, h2])]
      conv_rhs => rw [if_pos (by simp [h1, h2])]

theorem bishopValid_frame (p : Piece) (e : Pos) (g g' : Grid)
    (hg : ∀ q, q ≠ e → getPiece g q = getPiece g' q) :
    bishopValid p e g = bishopValid p e g' := by
  obtain ⟨pk, pc, ⟨sx, sy⟩, pm, pf⟩ := p
  obtain ⟨ex, ey⟩ := e
  unfold bishopValid
  dsimp only
  by_cases h1 : (ex - sx).natAbs ≠ (ey - sy).natAbs
  · conv_lhs => rw [if_pos h1]
    conv_rhs => rw [if_pos h1]
  · conv_lhs => rw [if_neg h1]
    conv_rhs => rw [if_neg h1]
    apply all_congr_bool
    intro i hi
    have hilt : i < (ex - sx).natAbs :=
      List.mem_range.mp (List.mem_of_mem_drop hi)
    have hne : ((sx + (i : Int) * (if ex - sx > 0 then 1 else -1),
        sy + (i : Int) * (if ey - sy > 0 then 1 else -1)) : Pos) ≠ (ex, ey) := by
      intro hc
      have hfst := congrArg Prod.fst hc
      dsimp only at hfst
      by_cases hpx : ex - sx > 0
      · rw [if_pos hpx] at hfst
        omega
      · rw [if_neg hpx] at hfst
        omega
    rw [hg _ hne]

theorem queenValid_frame (p : Piece) (e : Pos) (g g' : Grid)
    (hg : ∀ q, q ≠ e → getPiece g q = getPiece g' q) :
    queenValid p e g = queenValid p e g' := by
  unfold queenValid
  rw [rookValid_frame p e g g' hg, bishopValid_frame p e g g' hg]

def c10R : Piece := ⟨.rook, .w, (5, 0), false, false⟩

def c10P : Piece := ⟨.pawn, .w, (5, 3), false, false⟩

def c10K : Piece := ⟨.king, .w, (7, 4), true, false⟩

def c10bk : Piece := ⟨.king, .b, (0, 4), true, false⟩

def c10g : Grid := gridOf [c10R, c10P, c10K, c10bk]

def c10wp : Piece := ⟨.pawn, .w, (3, 4), true, false⟩

def c10wn : Piece := ⟨.knight, .w, (2, 5), true, false⟩

def c10bp : Piece := ⟨.pawn, .b, (3, 5), true, true⟩

def c10pg : Grid := gridOf [c10wp, c10wn, c10bp]

/-- Counterexample to C10's parenthetical "only Pawn and King exclude
same-color destinations": the white pawn on `(3,4)` is allowed the diagonal
move onto `(2,5)`, occupied by its OWN knight, because the en-passant
clause runs even when the destination holds a same-color piece and the
armed black pawn on `(3,5)` satisfies it. -/
theorem c10_pawn_same_color_hole :
    pawnValid c10wp ((2 : Int), 5) c10pg = true ∧
      c10pg ((2 : Int), 5) = some c10wn ∧ c10wn.color = .w ∧
      c10wp.color = .w := ⟨rfl, rfl, rfl, rfl⟩

/-- C10 (amended): for Rook, Knight, Bishop and Queen, `is_valid_move`
never examines the destination square's content: its verdict is unchanged
under any rewrite of that cell (Knight reads no square at all), so
`move_piece` will execute a capture of the mover's own piece — shown by the
closed conjuncts: the rook move `(5,0) → (5,3)` onto the white pawn
completes with `True` and the pawn is gone.  Pawn, however, does NOT always
exclude same-color destinations (see the counterexample); King does. -/
theorem c10_destination_color_ignored (p : Piece) (e : Pos) (g : Grid)
    (v v' : Option Piece)
    (hkind : p.kind = .rook ∨ p.kind = .knight ∨ p.kind = .bishop ∨
      p.kind = .queen) :
    pureValid p e (setCell g e v) = pureValid p e (setCell g e v') ∧
      (movePiece ⟨c10g, none⟩ ((5 : Int), 0) ((5 : Int), 3) .w).map
          (fun r => (r.1, r.2.grid ((5 : Int), 3))) =
        .ok (true, some ⟨.rook, .w, (5, 3), true, false⟩) ∧
      c10g ((5 : Int), 3) = some c10P ∧ c10P.color = .w := by
  refine ⟨?_, rfl, rfl, rfl⟩
  have hframe : ∀ q, q ≠ e →
      getPiece (setCell g e v) q = getPiece (setCell g e v') q := by
    intro q hq
    rw [getPiece_setCell_ne g e q v hq, getPiece_setCell_ne g e q v' hq]
  unfold pureValid
  rcases hkind with hk | hk | hk | hk <;> rw [hk]
  · exact rookValid_frame p e _ _ hframe
  · exact bishopValid_frame p e _ _ hframe
  · exact queenValid_frame p e _ _ hframe

/-- Witness for C10 (amended): the white rook's verdict for `(5,0) → (3,0)`
does not change when the destination cell is rewritten from a pawn to
empty. -/
theorem c10_destination_color_ignored_witness :
    pureValid c10R ((3 : Int), 0) (setCell c10g ((3 : Int), 0) (some c10P)) =
      pureValid c10R ((3 : Int), 0) (setCell c10g ((3 : Int), 0) none) :=
  (c10_destination_color_ignored c10R ((3 : Int), 0) c10g (some c10P) none
    (Or.inl rfl)).1
